import Mathlib

/-!
Shallow embedding of the palette harmony engine of `src/app.rs`
(terminal-palette).  Rust `f32` arithmetic is modelled over `ℚ`;
the ambient random source is an explicit parameter (a stream
`ℕ → ℚ` of draws consumed in program order, plus one random
`Hsv` for `ColorBlock::generate_random_color`).  The `ColorBlock`
type and its small helpers live in `src/widgets/content.rs`, which
is not part of the sources; those are modelled from the spec and
marked as such.
-/

namespace Palette

/-- HSV triple: hue in degrees, saturation and value as fractions.
Modelled from the spec §3 (the `palette::Hsv` payload of a slot). -/
structure Hsv where
  hue : ℚ
  saturation : ℚ
  value : ℚ
deriving DecidableEq, Repr

/-- Modelled from the spec: a slot entry of `widgets/content.rs`
(`ColorBlock`), holding an id, an HSV color and a lock flag. -/
structure ColorBlock where
  id : ℕ
  hsv : Hsv
  locked : Bool
deriving DecidableEq, Repr

/-- Modelled from the spec §4.2: `ColorBlock::new(idx, h, s, v)`
(in the missing `widgets/content.rs`) creates an unlocked block
with the given color. -/
def ColorBlock.new (idx : ℕ) (h s v : ℚ) : ColorBlock :=
  { id := idx, hsv := { hue := h, saturation := s, value := v }, locked := false }

/-- Modelled from the spec §3 lifecycle: `ColorBlock::change_color`
(missing `widgets/content.rs`) overwrites only the HSV color. -/
def ColorBlock.change_color (b : ColorBlock) (h s v : ℚ) : ColorBlock :=
  { b with hsv := { hue := h, saturation := s, value := v } }

/-- Modelled from the spec §4.3: `ColorBlock::generate_random_color`
(missing `widgets/content.rs`) assigns a uniformly random Color; the
drawn Color is the explicit parameter `rc`. -/
def ColorBlock.generate_random_color (b : ColorBlock) (rc : Hsv) : ColorBlock :=
  { b with hsv := rc }

/-- Modelled from the spec: `ColorBlock::get_hsv_values` returns the
`(h, s, v)` triple. -/
def ColorBlock.get_hsv_values (b : ColorBlock) : ℚ × ℚ × ℚ :=
  (b.hsv.hue, b.hsv.saturation, b.hsv.value)

abbrev Blocks := List (Option ColorBlock)

/-- Modelled from the spec §9: `ColorBlock::get_avg_hue` averages the
locked hue values naively (no wrap-around correction). -/
def get_avg_hue (blocks : List ColorBlock) : ℚ :=
  (blocks.map (fun b => b.hsv.hue)).sum / (blocks.length : ℚ)

/-- Modelled from the spec §4.3: average of the saturations. -/
def get_avg_saturation (blocks : List ColorBlock) : ℚ :=
  (blocks.map (fun b => b.hsv.saturation)).sum / (blocks.length : ℚ)

/-- Modelled from the spec §4.3: average of the values. -/
def get_avg_value (blocks : List ColorBlock) : ℚ :=
  (blocks.map (fun b => b.hsv.value)).sum / (blocks.length : ℚ)

/-- The palette-relevant fields of `App` (`app.rs`): the nine-slot
sparse array, the cached occupied count and the selected logical
position. -/
structure PaletteState where
  color_blocks : Blocks
  color_block_count : ℕ
  selected_block_id : ℕ
deriving DecidableEq, Repr

/-- Rust `f32::clamp` (`x.clamp(lo, hi)`), total over `ℚ`; agrees with
the source whenever `lo ≤ hi`, which holds at every call site under the
stated hypotheses. -/
def clampQ (x lo hi : ℚ) : ℚ := max lo (min hi x)

/-- Rust `%` on `f32` with modulus `360.0`: the remainder
`a - 360 * trunc (a / 360)`, which keeps the sign of the dividend. -/
def fmod360 (a : ℚ) : ℚ :=
  if 0 ≤ a then a - 360 * (⌊a / 360⌋ : ℚ) else a - 360 * (⌈a / 360⌉ : ℚ)

/-- `App::get_locked_blocks` (`app.rs` 266-273): the occupied, locked
slots in storage order. -/
def lockedBlocks (s : PaletteState) : List ColorBlock :=
  (s.color_blocks.filterMap id).filter (fun b => b.locked)

/-- The `block_info` snapshot loop shared by every theory
(`app.rs`, e.g. 299-304): occupied slots with their storage indices,
in storage order; `i` is the running storage index. -/
def blockInfoAux : ℕ → Blocks → List (ℕ × ColorBlock)
  | _, [] => []
  | i, none :: rest => blockInfoAux (i + 1) rest
  | i, some b :: rest => (i, b) :: blockInfoAux (i + 1) rest

/-- The `logical_positions` mapping shared by every theory
(`app.rs`, e.g. 311-314): triples `(array_pos, logical_pos, locked)`;
`p` is the running logical position. -/
def logicalAux : ℕ → List (ℕ × ColorBlock) → List (ℕ × ℕ × Bool)
  | _, [] => []
  | p, (a, b) :: rest => (a, p, b.locked) :: logicalAux (p + 1) rest

/-- The per-slot write loop shared by the randomized theories
(`app.rs`, e.g. 322-373): walk the logical triples, skip locked slots,
and for each occupied unlocked slot compute `(h, s, v)` and the next
draw counter with `f logical_pos ctr`, then `change_color`. -/
def applyLoop (f : ℕ → ℕ → (ℚ × ℚ × ℚ) × ℕ) :
    Blocks → ℕ → List (ℕ × ℕ × Bool) → Blocks
  | bs, _, [] => bs
  | bs, ctr, tr :: rest =>
    if tr.2.2 then applyLoop f bs ctr rest
    else
      match bs.getD tr.1 none with
      | none => applyLoop f bs ctr rest
      | some b =>
        let r := f tr.2.1 ctr
        applyLoop f (bs.set tr.1 (some (b.change_color r.1.1 r.1.2.1 r.1.2.2))) r.2 rest

/-- The per-slot write loop of the draw-free theories (shadows, lights,
neutrals; `app.rs` 1034-1087 and 1186-1229). -/
def applyLoopNR (f : ℕ → ℚ × ℚ × ℚ) : Blocks → List (ℕ × ℕ × Bool) → Blocks
  | bs, [] => bs
  | bs, tr :: rest =>
    if tr.2.2 then applyLoopNR f bs rest
    else
      match bs.getD tr.1 none with
      | none => applyLoopNR f bs rest
      | some b =>
        let r := f tr.2.1
        applyLoopNR f (bs.set tr.1 (some (b.change_color r.1 r.2.1 r.2.2))) rest

/-- The shared anchor preamble of the grouped theories, analogous and
monochrome (`app.rs`, e.g. 284-296): with locked blocks, averages;
otherwise randomize slot 0 (when occupied) and read it back, or keep
hue `0` and the theory defaults. Returns the possibly updated blocks
and `(base_hue, base_sat, base_val)`. -/
def groupAnchor (defSat defVal : ℚ) (rc : Hsv) (s : PaletteState) :
    Blocks × ℚ × ℚ × ℚ :=
  let locked := lockedBlocks s
  if locked.isEmpty then
    match s.color_blocks.getD 0 none with
    | some b =>
      (s.color_blocks.set 0 (some (b.generate_random_color rc)),
        rc.hue, rc.saturation, rc.value)
    | none => (s.color_blocks, 0, defSat, defVal)
  else
    (s.color_blocks, get_avg_hue locked, get_avg_saturation locked,
      get_avg_value locked)

/-- Static data of one grouped theory (complementary, triad, tetrad,
hexad): group size, jitter rate, default base sat/val and the
variation ranges with/without locked blocks. -/
structure GroupParams where
  baseColors : ℕ
  randRate : ℤ
  defSat : ℚ
  defVal : ℚ
  satVarLocked : ℚ
  satVarUnlocked : ℚ
  valVarLocked : ℚ
  valVarUnlocked : ℚ
deriving DecidableEq, Repr

/-- Loop body of the grouped theories (`app.rs`, e.g. 327-371):
hue offset by group index, jitter draw, sat/val variation by
variation index, clamped to `[0, 1]`. -/
def groupBody (P : GroupParams) (hasLocked : Bool)
    (baseHue baseSat baseVal : ℚ) (colorsPerGroup : ℕ) (rng : ℕ → ℚ)
    (lpos ctr : ℕ) : (ℚ × ℚ × ℚ) × ℕ :=
  let randomness := rng ctr
  let colorGroup := lpos % P.baseColors
  let variationIndex := lpos / P.baseColors
  let groupBaseHue :=
    if colorGroup = 0 then baseHue
    else fmod360 (baseHue + (colorGroup : ℚ) * (360 / (P.baseColors : ℚ)))
  let variationFactor : ℚ :=
    if 1 < colorsPerGroup then
      (variationIndex : ℚ) / ((colorsPerGroup - 1 : ℕ) : ℚ)
    else 1 / 2
  let newHue := fmod360 (groupBaseHue + randomness)
  let satRange : ℚ := if hasLocked then P.satVarLocked else P.satVarUnlocked
  let valRange : ℚ := if hasLocked then P.valVarLocked else P.valVarUnlocked
  let satOffset := (variationFactor - 1 / 2) * satRange * 2
  let valOffset := (variationFactor - 1 / 2) * valRange * 2
  ((newHue, clampQ (baseSat + satOffset) 0 1, clampQ (baseVal + valOffset) 0 1),
    ctr + 1)

/-- Shared skeleton of `generate_complementary` / `generate_triad` /
`generate_tetrad` / `generate_hexad` (`app.rs` 275-680): anchor, block
snapshot, logical mapping, ceiling-division group sizing, write loop. -/
def generateGrouped (P : GroupParams) (rc : Hsv) (rng : ℕ → ℚ)
    (s : PaletteState) : PaletteState :=
  match groupAnchor P.defSat P.defVal rc s with
  | (blocks1, baseHue, baseSat, baseVal) =>
    let info := blockInfoAux 0 blocks1
    if info.isEmpty then { s with color_blocks := blocks1 }
    else
      let total := info.length
      let colorsPerGroup := (total + P.baseColors - 1) / P.baseColors
      let triples := logicalAux 0 info
      let body := groupBody P (!(lockedBlocks s).isEmpty) baseHue baseSat
        baseVal colorsPerGroup rng
      { s with color_blocks := applyLoop body blocks1 0 triples }

/-- `generate_tetrad` (`app.rs` 275-374). -/
def tetradParams : GroupParams :=
  { baseColors := 4, randRate := 4, defSat := 0.68, defVal := 0.63,
    satVarLocked := 0.12, satVarUnlocked := 0.16,
    valVarLocked := 0.15, valVarUnlocked := 0.20 }

/-- `generate_hexad` (`app.rs` 376-477). -/
def hexadParams : GroupParams :=
  { baseColors := 6, randRate := 4, defSat := 0.65, defVal := 0.60,
    satVarLocked := 0.10, satVarUnlocked := 0.14,
    valVarLocked := 0.12, valVarUnlocked := 0.18 }

/-- `generate_triad` (`app.rs` 479-579). -/
def triadParams : GroupParams :=
  { baseColors := 3, randRate := 4, defSat := 0.72, defVal := 0.68,
    satVarLocked := 0.12, satVarUnlocked := 0.18,
    valVarLocked := 0.15, valVarUnlocked := 0.22 }

/-- `generate_complementary` (`app.rs` 581-680). -/
def complementaryParams : GroupParams :=
  { baseColors := 2, randRate := 4, defSat := 0.70, defVal := 0.65,
    satVarLocked := 0.12, satVarUnlocked := 0.18,
    valVarLocked := 0.15, valVarUnlocked := 0.22 }

def generate_tetrad : Hsv → (ℕ → ℚ) → PaletteState → PaletteState :=
  generateGrouped tetradParams

def generate_hexad : Hsv → (ℕ → ℚ) → PaletteState → PaletteState :=
  generateGrouped hexadParams

def generate_triad : Hsv → (ℕ → ℚ) → PaletteState → PaletteState :=
  generateGrouped triadParams

def generate_complementary : Hsv → (ℕ → ℚ) → PaletteState → PaletteState :=
  generateGrouped complementaryParams

/-- The sat/val variation range of `generate_analogous`
(`app.rs` 764-773); it bounds the corresponding draws. -/
def analogousVariation (hasLocked : Bool) : ℚ :=
  if hasLocked then 0.05 else 0.10

/-- Loop body of `generate_analogous` (`app.rs` 742-783):
bidirectional 10°-per-step offsets around the center, one hue jitter
draw and one sat and one val draw (divided by 100) per slot; the hue
is renormalized into `[0, 360)`. -/
def analogousBody (baseHue baseSat baseVal : ℚ) (center : ℕ)
    (rng : ℕ → ℚ) (lpos ctr : ℕ) : (ℚ × ℚ × ℚ) × ℕ :=
  let randomness := rng ctr
  let offset : ℚ :=
    if lpos < center then -(((center - lpos : ℕ) : ℚ) * 10)
    else if center < lpos then ((lpos - center : ℕ) : ℚ) * 10
    else 0
  let newHue := fmod360 (fmod360 (baseHue + offset + randomness) + 360)
  let newSat := clampQ (baseSat + rng (ctr + 1) / 100) 0 1
  let newVal := clampQ (baseVal + rng (ctr + 2) / 100) 0 1
  ((newHue, newSat, newVal), ctr + 3)

/-- `generate_analogous` (`app.rs` 682-785). -/
def generate_analogous (rc : Hsv) (rng : ℕ → ℚ) (s : PaletteState) :
    PaletteState :=
  match groupAnchor 0.65 0.65 rc s with
  | (blocks1, baseHue, baseSat, baseVal) =>
    let info := blockInfoAux 0 blocks1
    if info.isEmpty then { s with color_blocks := blocks1 }
    else
      let total := info.length
      let triples := logicalAux 0 info
      let center :=
        match triples.find? (fun tr => tr.2.2) with
        | some tr => tr.2.1
        | none => total / 2
      let body := analogousBody baseHue baseSat baseVal center rng
      { s with color_blocks := applyLoop body blocks1 0 triples }

/-- Loop body of `generate_monochrome` (`app.rs` 865-903): hue jitter
scaled by `3/10`; sat/val swept linearly over `[0.1, 0.9]` and
`[0.2, 0.9]`, blended 70/30 with the anchor when a lock exists. -/
def monochromeBody (hasLocked : Bool)
    (baseHue anchorSat anchorVal satStep valStep : ℚ) (rng : ℕ → ℚ)
    (lpos ctr : ℕ) : (ℚ × ℚ × ℚ) × ℕ :=
  let hueRandomness := rng ctr
  let newHue := fmod360 (baseHue + hueRandomness * 3 / 10)
  let satProgress := 0.1 + satStep * (lpos : ℚ)
  let newSat :=
    if hasLocked then clampQ (satProgress * 0.7 + anchorSat * 0.3) 0.1 0.9
    else satProgress
  let valProgress := 0.2 + valStep * (lpos : ℚ)
  let newVal :=
    if hasLocked then clampQ (valProgress * 0.7 + anchorVal * 0.3) 0.2 0.9
    else valProgress
  ((newHue, newSat, newVal), ctr + 1)

/-- `generate_monochrome` (`app.rs` 787-905). -/
def generate_monochrome (rc : Hsv) (rng : ℕ → ℚ) (s : PaletteState) :
    PaletteState :=
  let locked := lockedBlocks s
  let pre : Blocks × ℚ :=
    if locked.isEmpty then
      match s.color_blocks.getD 0 none with
      | some b =>
        (s.color_blocks.set 0 (some (b.generate_random_color rc)), rc.hue)
      | none => (s.color_blocks, 0)
    else (s.color_blocks, get_avg_hue locked)
  let blocks1 := pre.1
  let baseHue := pre.2
  let info := blockInfoAux 0 blocks1
  if info.isEmpty then { s with color_blocks := blocks1 }
  else
    let total := info.length
    let triples := logicalAux 0 info
    let anchor : ℚ × ℚ :=
      if !locked.isEmpty then
        match locked.head? with
        | some b => (b.hsv.saturation, b.hsv.value)
        | none => (0.6, 0.6)
      else
        match blocks1.getD 0 none with
        | some b => (b.hsv.saturation, b.hsv.value)
        | none => (0.6, 0.6)
    let satStep : ℚ :=
      if 1 < total then (0.9 - 0.1) / ((total - 1 : ℕ) : ℚ) else 0
    let valStep : ℚ :=
      if 1 < total then (0.9 - 0.2) / ((total - 1 : ℕ) : ℚ) else 0
    let body :=
      monochromeBody (!locked.isEmpty) baseHue anchor.1 anchor.2 satStep
        valStep rng
    { s with color_blocks := applyLoop body blocks1 0 triples }

/-- Loop body of `generate_shades` (`app.rs` 1042-1086): value walks in
even steps away from the anchor (toward white after it for lights,
toward black for shadows), clamped to `[0, 1]`; saturation is constant
for shadows and swept toward `0` for lights. -/
def shadesBody (toLight : Bool) (baseHue anchorSat anchorVal : ℚ)
    (anchorLogicalPos : ℕ)
    (stepFromAnchor stepToAnchor satStepFrom satStepTo : ℚ)
    (lpos : ℕ) : ℚ × ℚ × ℚ :=
  let newVal :=
    if lpos < anchorLogicalPos then
      if toLight then 0 + stepToAnchor * (lpos : ℚ)
      else 1 - stepToAnchor * (lpos : ℚ)
    else if lpos = anchorLogicalPos then anchorVal
    else
      let stepsAfter : ℚ := ((lpos - anchorLogicalPos : ℕ) : ℚ)
      if toLight then anchorVal + stepFromAnchor * stepsAfter
      else anchorVal - stepFromAnchor * stepsAfter
  let clampedVal := clampQ newVal 0 1
  let newSat :=
    if toLight then
      if lpos < anchorLogicalPos then min (satStepTo * (lpos : ℚ)) anchorSat
      else if lpos = anchorLogicalPos then anchorSat
      else
        max (anchorSat - satStepFrom * ((lpos - anchorLogicalPos : ℕ) : ℚ)) 0
    else anchorSat
  (baseHue, newSat, clampedVal)

/-- Core of `generate_shades` after the base hue is fixed
(`app.rs` 928-1088): snapshot, anchor (first locked block, else the
first occupied block), step sizes, write loop. -/
def generate_shades_core (toLight : Bool) (baseHue : ℚ) (blocks1 : Blocks)
    (s : PaletteState) : PaletteState :=
  let info := blockInfoAux 0 blocks1
  if info.isEmpty then { s with color_blocks := blocks1 }
  else
    let total := info.length
    let triples := logicalAux 0 info
    let anchor : ℕ × ℚ × ℚ :=
      match info.enum.find? (fun x => x.2.2.locked) with
      | some x => (x.1, x.2.2.hsv.value, x.2.2.hsv.saturation)
      | none =>
        match info.head? with
        | some x => (0, x.2.hsv.value, x.2.hsv.saturation)
        | none => (0, 0, 0)
    let aPos := anchor.1
    let aVal := anchor.2.1
    let aSat := anchor.2.2
    let blocksAfter := total - aPos
    let stepFromAnchor : ℚ :=
      if toLight then
        if 0 < blocksAfter then (1 - aVal) / (blocksAfter : ℚ) else 0
      else
        if 0 < blocksAfter then aVal / (blocksAfter : ℚ) else 0
    let blocksBefore := aPos
    let stepToAnchor : ℚ :=
      if 0 < blocksBefore then
        if toLight then (aVal - 0) / (blocksBefore : ℚ)
        else (1 - aVal) / (blocksBefore : ℚ)
      else 0
    let satStepFrom : ℚ :=
      if toLight && 1 < blocksAfter then aSat / ((blocksAfter - 1 : ℕ) : ℚ)
      else 0
    let satStepTo : ℚ :=
      if toLight && 0 < blocksBefore then aSat / (blocksBefore : ℚ) else 0
    let body :=
      shadesBody toLight baseHue aSat aVal aPos stepFromAnchor stepToAnchor
        satStepFrom satStepTo
    { s with color_blocks := applyLoopNR body blocks1 triples }

/-- `generate_shades` (`app.rs` 907-1088); `toLight = false` is the
Shadows theory, `toLight = true` is Lights. -/
def generate_shades (toLight : Bool) (rc : Hsv) (s : PaletteState) :
    PaletteState :=
  let locked := lockedBlocks s
  if locked.isEmpty then
    match s.color_blocks.getD 0 none with
    | some b =>
      let blocks1 := s.color_blocks.set 0 (some (b.generate_random_color rc))
      generate_shades_core toLight rc.hue blocks1 s
    | none => s
  else generate_shades_core toLight (get_avg_hue locked) s.color_blocks s

/-- Loop body of `generate_neutrals` (`app.rs` 1187-1228): symmetric
desaturation away from the anchor; value held near the anchor inside
`[anchor - 0.05, anchor + 0.05]` with a small linear curve. -/
def neutralsBody (baseHue anchorSat anchorVal : ℚ)
    (anchorLogicalPos total : ℕ) (satStepTo satStepFrom : ℚ)
    (lpos : ℕ) : ℚ × ℚ × ℚ :=
  let newSat :=
    if lpos < anchorLogicalPos then min (satStepTo * (lpos : ℚ)) anchorSat
    else if lpos = anchorLogicalPos then anchorSat
    else
      max (anchorSat - satStepFrom * ((lpos - anchorLogicalPos : ℕ) : ℚ)) 0
  let valueVariation : ℚ := 0.05
  let rangeLo := max (anchorVal - valueVariation) 0
  let rangeHi := min (anchorVal + valueVariation) 1
  let valueProgress : ℚ :=
    if 1 < total then (lpos : ℚ) / ((total - 1 : ℕ) : ℚ) else 0
  let valueOffset := (valueProgress - 0.5) * 2
  let valueAdjustment := valueOffset * valueVariation * 0.5
  let newVal := clampQ (anchorVal + valueAdjustment) rangeLo rangeHi
  (baseHue, newSat, newVal)

/-- `generate_neutrals` (`app.rs` 1090-1230). -/
def generate_neutrals (rc : Hsv) (s : PaletteState) : PaletteState :=
  let locked := lockedBlocks s
  let pre : Option (Blocks × ℚ × ℚ × ℚ) :=
    if !locked.isEmpty then
      match locked.head? with
      | some b =>
        some (s.color_blocks, get_avg_hue locked, b.hsv.saturation,
          b.hsv.value)
      | none => none
    else
      match s.color_blocks.getD 0 none with
      | some b =>
        some (s.color_blocks.set 0 (some (b.generate_random_color rc)),
          rc.hue, rc.saturation, rc.value)
      | none => none
  match pre with
  | none => s
  | some (blocks1, baseHue, anchorSat, anchorVal) =>
    let info := blockInfoAux 0 blocks1
    if info.isEmpty then { s with color_blocks := blocks1 }
    else
      let total := info.length
      let triples := logicalAux 0 info
      let anchorLogicalPos :=
        match info.enum.find? (fun x => x.2.2.locked) with
        | some x => x.1
        | none => 0
      let blocksAfter := total - anchorLogicalPos
      let blocksBefore := anchorLogicalPos
      let satStepTo : ℚ :=
        if 0 < blocksBefore then anchorSat / (blocksBefore : ℚ) else 0
      let satStepFrom : ℚ :=
        if 1 < blocksAfter then anchorSat / ((blocksAfter - 1 : ℕ) : ℚ)
        else 0
      let body :=
        neutralsBody baseHue anchorSat anchorVal anchorLogicalPos total
          satStepTo satStepFrom
      { s with color_blocks := applyLoopNR body blocks1 triples }

/-- The theory enumeration (`app.rs` 42-53). -/
inductive ColorTheories
  | Analogous
  | Complementary
  | Triad
  | Tetrad
  | Hexad
  | Monochrome
  | Shadows
  | Lights
  | Neutrals
deriving DecidableEq, Repr

/-- The `generate` command: the Space-key dispatch on the active theory
(`app.rs` 193-203). -/
def generate : ColorTheories → Hsv → (ℕ → ℚ) → PaletteState → PaletteState
  | .Analogous => generate_analogous
  | .Complementary => generate_complementary
  | .Triad => generate_triad
  | .Tetrad => generate_tetrad
  | .Hexad => generate_hexad
  | .Monochrome => generate_monochrome
  | .Shadows => fun rc _ s => generate_shades false rc s
  | .Lights => fun rc _ s => generate_shades true rc s
  | .Neutrals => fun rc _ s => generate_neutrals rc s

/-- `App::get_existing_block_indices` (`app.rs` 1232-1238). -/
def get_existing_block_indices (s : PaletteState) : List ℕ :=
  s.color_blocks.enum.filterMap
    (fun x => if x.2.isSome then some x.1 else none)

/-- `App::get_array_index_for_logical_position` (`app.rs` 1240-1243). -/
def get_array_index_for_logical_position (s : PaletteState) (p : ℕ) :
    Option ℕ :=
  (get_existing_block_indices s).get? p

/-- `App::toggle_lock` (`app.rs` 1271-1275): ordinal addressing, flips
the lock of storage index `id - 1` when occupied. -/
def toggle_lock (s : PaletteState) (id : ℕ) : PaletteState :=
  match s.color_blocks.getD (id - 1) none with
  | none => s
  | some b =>
    { s with color_blocks :=
        s.color_blocks.set (id - 1) (some { b with locked := !b.locked }) }

/-- The `l`-key handler (`app.rs` 168-176): toggle the lock of the slot
at the selected logical position. -/
def lockSelected (s : PaletteState) : PaletteState :=
  match get_array_index_for_logical_position s s.selected_block_id with
  | none => s
  | some ai =>
    match s.color_blocks.getD ai none with
    | none => s
    | some b =>
      { s with color_blocks :=
          s.color_blocks.set ai (some { b with locked := !b.locked }) }

/-- The Enter handler of the color editor (`app.rs` 248-259): overwrite
the selected slot's color with `newHsv`, the value of
`rgb2hsv (hex2rgb field)` computed by the missing
`widgets/content.rs` conversions (irrelevant to the no-op path). -/
def applyEditColor (newHsv : Hsv) (s : PaletteState) : PaletteState :=
  match get_array_index_for_logical_position s s.selected_block_id with
  | none => s
  | some ai =>
    match s.color_blocks.getD ai none with
    | none => s
    | some b =>
      { s with color_blocks := s.color_blocks.set ai (some { b with hsv := newHsv }) }

/-- Rust `iter().position(|x| x.is_none())` (`app.rs` 1278). -/
def positionNone : Blocks → Option ℕ
  | [] => none
  | none :: _ => some 0
  | some _ :: rest => (positionNone rest).map (· + 1)

/-- `App::add_block` (`app.rs` 1277-1282). -/
def add_block (s : PaletteState) : PaletteState :=
  match positionNone s.color_blocks with
  | none => s
  | some idx =>
    { s with
        color_blocks := s.color_blocks.set idx (some (ColorBlock.new idx 0 0 0)),
        color_block_count := s.color_block_count + 1 }

/-- `App::del_block` (`app.rs` 1284-1298). -/
def del_block (s : PaletteState) : PaletteState :=
  match get_array_index_for_logical_position s s.selected_block_id with
  | none => s
  | some ai =>
    let blocks := s.color_blocks.set ai none
    let newCount := blocks.countP (fun b => b.isSome)
    { s with
        color_blocks := blocks,
        color_block_count := s.color_block_count - 1,
        selected_block_id :=
          if 0 < newCount then min s.selected_block_id (newCount - 1) else 0 }

/-- Occupied-slot count (`app.rs` 1251, 1291):
`iter().filter(|b| b.is_some()).count()`. -/
def occupiedCount (s : PaletteState) : ℕ :=
  s.color_blocks.countP (fun b => b.isSome)

/-- The `a`-key command (`app.rs` 156): `add_block` guarded by
`color_block_count < 9`. -/
def cmdAdd (s : PaletteState) : PaletteState :=
  if s.color_block_count < 9 then add_block s else s

/-- The `d`-key command (`app.rs` 157): `del_block` guarded by
`color_block_count > 3`. -/
def cmdDel (s : PaletteState) : PaletteState :=
  if 3 < s.color_block_count then del_block s else s

/-- An add-or-remove user command (claim C2). -/
inductive Cmd
  | add
  | del
deriving DecidableEq, Repr

def applyCmd : Cmd → PaletteState → PaletteState
  | .add => cmdAdd
  | .del => cmdDel

def applyCmds (cmds : List Cmd) (s : PaletteState) : PaletteState :=
  cmds.foldl (fun t c => applyCmd c t) s

/-- Occupancy-and-lock shape of a slot: everything `generate` must
preserve (id, occupancy, lock flag). -/
def slotShape (ob : Option ColorBlock) : Option (ℕ × Bool) :=
  ob.map (fun b => (b.id, b.locked))

/-- The HSV color stored at a logical position (the dense rank of an
occupied slot, §3 of the spec). -/
def logicalHsv (bs : Blocks) (p : ℕ) : Option Hsv :=
  ((blockInfoAux 0 bs).get? p).map (fun x => x.2.hsv)

/-- Absolute circular deviation of the hue difference `h1 - h0` from
180°: the representative of `h1 - h0` in `[0, 360)` measured against
180. -/
def hueDiffFrom180 (h1 h0 : ℚ) : ℚ :=
  |fmod360 (fmod360 (h1 - h0) + 360) - 180|

/-! ### Concrete example states used by witnesses and counterexamples -/

/-- A generic random anchor color with hue in `[0, 360)` and sat/val in
`[0, 1]`. -/
def rcW : Hsv := { hue := 120, saturation := 1/2, value := 3/5 }

/-- A jitter stream drawing `0` forever. -/
def rngW : ℕ → ℚ := fun _ => 0

def bW1 : ColorBlock :=
  { id := 1, hsv := { hue := 10, saturation := 1/2, value := 1/2 },
    locked := false }

def bW2 : ColorBlock :=
  { id := 2, hsv := { hue := 30, saturation := 1/2, value := 1/2 },
    locked := true }

def bW3 : ColorBlock :=
  { id := 2, hsv := { hue := 200, saturation := 1/2, value := 1/2 },
    locked := false }

/-- Two occupied slots, the second locked. -/
def sW1 : PaletteState :=
  { color_blocks := [some bW1, some bW2, none, none, none, none, none,
      none, none],
    color_block_count := 2, selected_block_id := 0 }

/-- The default palette: five neutral unlocked slots. -/
def sW2 : PaletteState :=
  { color_blocks := [some (ColorBlock.new 1 0 0 0),
      some (ColorBlock.new 2 0 0 0), some (ColorBlock.new 3 0 0 0),
      some (ColorBlock.new 4 0 0 0), some (ColorBlock.new 5 0 0 0),
      none, none, none, none],
    color_block_count := 5, selected_block_id := 0 }

/-- Two occupied unlocked slots (complementary scenario). -/
def sW3 : PaletteState :=
  { color_blocks := [some bW1, some bW3, none, none, none, none, none,
      none, none],
    color_block_count := 2, selected_block_id := 0 }

/-- Jitter stream hitting the extreme draws `-4` and `3`. -/
def rngC3 : ℕ → ℚ := fun i => if i = 0 then -4 else 3

def rcC3 : Hsv := { hue := 0, saturation := 7/10, value := 13/20 }

/-- One occupied unlocked slot. -/
def sC4 : PaletteState :=
  { color_blocks := [some bW1, none, none, none, none, none, none, none,
      none],
    color_block_count := 1, selected_block_id := 0 }

def rngC4 : ℕ → ℚ := fun _ => -4

def rcC4 : Hsv := { hue := 0, saturation := 1/2, value := 1/2 }

def bK6 : ColorBlock :=
  { id := 2, hsv := { hue := 40, saturation := 1/2, value := 1/2 },
    locked := true }

/-- Four occupied slots with a single locked anchor at logical
position 1 (value 1/2). -/
def sW6 : PaletteState :=
  { color_blocks := [
      some { id := 1, hsv := { hue := 40, saturation := 1/2, value := 9/10 },
             locked := false },
      some bK6,
      some { id := 3, hsv := { hue := 40, saturation := 1/2, value := 1/10 },
             locked := false },
      some { id := 4, hsv := { hue := 40, saturation := 1/2, value := 1/5 },
             locked := false },
      none, none, none, none, none],
    color_block_count := 4, selected_block_id := 0 }

/-- Two occupied slots but an out-of-range selection. -/
def sW7 : PaletteState :=
  { color_blocks := [some bW1, some bW3, none, none, none, none, none,
      none, none],
    color_block_count := 2, selected_block_id := 5 }

/-! ### Basic numeric lemmas -/

theorem le_clampQ {lo c : ℚ} (x hi : ℚ) (h : c ≤ lo) : c ≤ clampQ x lo hi :=
  le_trans h (le_max_left _ _)

theorem clampQ_le {hi c : ℚ} (x lo : ℚ) (h1 : lo ≤ c) (h2 : hi ≤ c) :
    clampQ x lo hi ≤ c :=
  max_le h1 (le_trans (min_le_left _ _) h2)

theorem clampQ_eq_self {x lo hi : ℚ} (h1 : lo ≤ x) (h2 : x ≤ hi) :
    clampQ x lo hi = x := by
  unfold clampQ
  rw [min_eq_right h2, max_eq_right h1]

theorem fmod360_exists_int (a : ℚ) : ∃ m : ℤ, fmod360 a = a - 360 * m := by
  unfold fmod360
  by_cases h : 0 ≤ a
  · exact ⟨⌊a / 360⌋, by rw [if_pos h]⟩
  · exact ⟨⌈a / 360⌉, by rw [if_neg h]⟩

theorem fmod360_nonneg {a : ℚ} (h : 0 ≤ a) : 0 ≤ fmod360 a := by
  unfold fmod360
  rw [if_pos h]
  have h1 : (⌊a / 360⌋ : ℚ) ≤ a / 360 := Int.floor_le _
  nlinarith

theorem fmod360_lt_of_nonneg {a : ℚ} (h : 0 ≤ a) : fmod360 a < 360 := by
  unfold fmod360
  rw [if_pos h]
  have h1 : a / 360 < (⌊a / 360⌋ : ℚ) + 1 := Int.lt_floor_add_one _
  nlinarith

theorem fmod360_nonpos {a : ℚ} (h : a < 0) : fmod360 a ≤ 0 := by
  unfold fmod360
  rw [if_neg (not_le.mpr h)]
  have h1 : a / 360 ≤ (⌈a / 360⌉ : ℚ) := Int.le_ceil _
  nlinarith

theorem neg_lt_fmod360_of_neg {a : ℚ} (h : a < 0) : -360 < fmod360 a := by
  unfold fmod360
  rw [if_neg (not_le.mpr h)]
  have h1 : (⌈a / 360⌉ : ℚ) < a / 360 + 1 := Int.ceil_lt_add_one _
  nlinarith

theorem fmod360_lt (a : ℚ) : fmod360 a < 360 := by
  by_cases h : 0 ≤ a
  · exact fmod360_lt_of_nonneg h
  · exact lt_of_le_of_lt (fmod360_nonpos (not_le.mp h)) (by norm_num)

theorem neg_lt_fmod360 (a : ℚ) : -360 < fmod360 a := by
  by_cases h : 0 ≤ a
  · exact lt_of_lt_of_le (by norm_num) (fmod360_nonneg h)
  · exact neg_lt_fmod360_of_neg (not_le.mp h)

theorem fmod360_eq_self {a : ℚ} (h1 : 0 ≤ a) (h2 : a < 360) : fmod360 a = a := by
  unfold fmod360
  rw [if_pos h1]
  have : ⌊a / 360⌋ = 0 := by
    rw [Int.floor_eq_zero_iff]
    constructor
    · positivity
    · rw [div_lt_one (by norm_num)]
      exact h2
  rw [this]
  push_cast
  ring

theorem fmod360_eq_self_of_neg {a : ℚ} (h1 : -360 < a) (h2 : a < 0) :
    fmod360 a = a := by
  unfold fmod360
  rw [if_neg (not_le.mpr h2)]
  have hc : ⌈a / 360⌉ = 0 := by
    rw [Int.ceil_eq_zero_iff, Set.mem_Ioc]
    constructor
    · rw [lt_div_iff₀ (by norm_num : (0:ℚ) < 360)]
      linarith
    · rw [div_le_iff₀ (by norm_num : (0:ℚ) < 360)]
      linarith
  rw [hc]
  push_cast
  ring

theorem fmod360_eq_sub {a : ℚ} (h1 : 360 ≤ a) (h2 : a < 720) :
    fmod360 a = a - 360 := by
  unfold fmod360
  rw [if_pos (le_trans (by norm_num) h1)]
  have : ⌊a / 360⌋ = 1 := by
    rw [Int.floor_eq_iff]
    constructor
    · push_cast
      rw [le_div_iff₀ (by norm_num : (0:ℚ) < 360)]
      linarith
    · push_cast
      rw [div_lt_iff₀ (by norm_num : (0:ℚ) < 360)]
      linarith
  rw [this]
  push_cast
  ring

theorem self_le_fmod360 {a : ℚ} (h : a < 0) : a ≤ fmod360 a := by
  unfold fmod360
  rw [if_neg (not_le.mpr h)]
  have hc : ⌈a / 360⌉ ≤ 0 := by
    have : a / 360 ≤ ((0 : ℤ) : ℚ) := by
      push_cast
      rw [div_le_iff₀ (by norm_num : (0:ℚ) < 360)]
      linarith
    exact Int.ceil_le.mpr this
  have hc' : ((⌈a / 360⌉ : ℤ) : ℚ) ≤ 0 := by exact_mod_cast hc
  nlinarith

theorem neg_le_fmod360 {c a : ℚ} (hc0 : 0 ≤ c) (h : -c ≤ a) :
    -c ≤ fmod360 a := by
  by_cases ha : 0 ≤ a
  · exact le_trans (by linarith) (fmod360_nonneg ha)
  · exact le_trans h (self_le_fmod360 (not_le.mp ha))

/-! ### List access lemmas -/

theorem getD_lt_length {bs : Blocks} {i : ℕ} {b : ColorBlock}
    (h : bs.getD i none = some b) : i < bs.length := by
  by_contra hc
  have hn : bs.get? i = none := List.get?_eq_none.mpr (Nat.le_of_not_lt hc)
  have : bs.getD i none = (bs.get? i).getD none := rfl
  rw [this, hn] at h
  exact Option.noConfusion h

theorem getD_mem {bs : Blocks} {i : ℕ} {b : ColorBlock}
    (h : bs.getD i none = some b) : some b ∈ bs := by
  cases hg : bs.get? i with
  | none =>
    have : bs.getD i none = (bs.get? i).getD none := rfl
    rw [this, hg] at h
    exact Option.noConfusion h
  | some ob =>
    have : bs.getD i none = (bs.get? i).getD none := rfl
    rw [this, hg] at h
    simp only [Option.getD_some] at h
    rw [← h]
    exact List.get?_mem hg

theorem getD_set_self {bs : Blocks} {i : ℕ} (x : Option ColorBlock)
    (h : i < bs.length) : (bs.set i x).getD i none = x := by
  have : (bs.set i x).get? i = some x := List.get?_set_eq_of_lt x h
  show ((bs.set i x).get? i).getD none = x
  rw [this]
  rfl

theorem getD_set_ne {i j : ℕ} (bs : Blocks) (x : Option ColorBlock)
    (h : i ≠ j) : (bs.set i x).getD j none = bs.getD j none := by
  show ((bs.set i x).get? j).getD none = (bs.get? j).getD none
  rw [List.get?_set_ne x bs h]

theorem mem_of_get?_eq_some {α : Type} {l : List α} {p : ℕ} {x : α}
    (h : l.get? p = some x) : x ∈ l :=
  List.get?_mem h

/-! ### blockInfoAux lemmas -/

theorem blockInfoAux_mem : ∀ {bs : Blocks} {i : ℕ} {x : ℕ × ColorBlock},
    x ∈ blockInfoAux i bs → i ≤ x.1 ∧ bs.getD (x.1 - i) none = some x.2 := by
  intro bs
  induction bs with
  | nil => intro i x h; exact absurd h (List.not_mem_nil x)
  | cons ob rest ih =>
    intro i x h
    cases ob with
    | none =>
      obtain ⟨h1, h2⟩ := ih (i := i + 1) h
      refine ⟨by omega, ?_⟩
      have he : x.1 - i = (x.1 - (i + 1)) + 1 := by omega
      rw [he]
      exact h2
    | some b =>
      rcases List.mem_cons.mp h with he | hm
      · rw [he]
        exact ⟨le_refl i, by simp⟩
      · obtain ⟨h1, h2⟩ := ih (i := i + 1) hm
        refine ⟨by omega, ?_⟩
        have he : x.1 - i = (x.1 - (i + 1)) + 1 := by omega
        rw [he]
        exact h2

theorem blockInfoAux_pairwise : ∀ (bs : Blocks) (i : ℕ),
    (blockInfoAux i bs).Pairwise (fun x y => x.1 < y.1) := by
  intro bs
  induction bs with
  | nil => intro i; exact List.Pairwise.nil
  | cons ob rest ih =>
    intro i
    cases ob with
    | none => exact ih (i + 1)
    | some b =>
      refine List.Pairwise.cons ?_ (ih (i + 1))
      intro y hy
      have := (blockInfoAux_mem hy).1
      simpa using by omega

theorem blockInfoAux_congr :
    ∀ {bs bs' : Blocks}, bs'.length = bs.length →
    (∀ j, (bs'.getD j none).isSome = (bs.getD j none).isSome) →
    ∀ (i p : ℕ) {a : ℕ} {b : ColorBlock},
    (blockInfoAux i bs).get? p = some (a, b) →
    ∃ b', (blockInfoAux i bs').get? p = some (a, b') ∧
      bs'.getD (a - i) none = some b' := by
  intro bs
  induction bs with
  | nil =>
    intro bs' hlen hocc i p a b h
    exact absurd h (by simp [blockInfoAux])
  | cons ob rest ih =>
    intro bs' hlen hocc i p a b h
    cases bs' with
    | nil => exact absurd hlen (by simp)
    | cons ob' rest' =>
      have hocc0 : ob'.isSome = ob.isSome := hocc 0
      have hocc' : ∀ j, (rest'.getD j none).isSome = (rest.getD j none).isSome :=
        fun j => hocc (j + 1)
      have hlen' : rest'.length = rest.length := by simpa using hlen
      cases ob with
      | none =>
        have hob' : ob' = none := by
          cases ob' with
          | none => rfl
          | some c => simp at hocc0
        subst hob'
        have h' : (blockInfoAux (i + 1) rest).get? p = some (a, b) := h
        have hge : i + 1 ≤ a := by
          have hm := mem_of_get?_eq_some h'
          exact (blockInfoAux_mem hm).1
        obtain ⟨b', hb1, hb2⟩ := ih hlen' hocc' (i + 1) p h'
        refine ⟨b', hb1, ?_⟩
        have he : a - i = (a - (i + 1)) + 1 := by omega
        rw [he]
        exact hb2
      | some b0 =>
        obtain ⟨b0', hob'⟩ : ∃ c, ob' = some c := by
          cases ob' with
          | none => simp at hocc0
          | some c => exact ⟨c, rfl⟩
        subst hob'
        cases p with
        | zero =>
          have hpair : ((i, b0) : ℕ × ColorBlock) = (a, b) := by
            simpa [blockInfoAux] using h
          obtain ⟨h1, h2⟩ := Prod.mk.inj hpair
          subst h1
          refine ⟨b0', by simp [blockInfoAux], by simp⟩
        | succ q =>
          have hq : (blockInfoAux (i + 1) rest).get? q = some (a, b) := by
            simpa [blockInfoAux] using h
          have hge : i + 1 ≤ a := (blockInfoAux_mem (mem_of_get?_eq_some hq)).1
          obtain ⟨b', hb1, hb2⟩ := ih hlen' hocc' (i + 1) q hq
          refine ⟨b', by simpa [blockInfoAux] using hb1, ?_⟩
          have he : a - i = (a - (i + 1)) + 1 := by omega
          rw [he]
          exact hb2

/-! ### logicalAux lemmas -/

theorem logicalAux_get? : ∀ (info : List (ℕ × ColorBlock)) (c p : ℕ),
    (logicalAux c info).get? p =
      (info.get? p).map (fun x => (x.1, c + p, x.2.locked)) := by
  intro info
  induction info with
  | nil => intro c p; simp [logicalAux]
  | cons x rest ih =>
    intro c p
    cases p with
    | zero => simp [logicalAux]
    | succ q =>
      have he : c + 1 + q = c + (q + 1) := by omega
      simpa [logicalAux, he] using ih (c + 1) q

theorem logicalAux_mem : ∀ {info : List (ℕ × ColorBlock)} {c : ℕ}
    {tr : ℕ × ℕ × Bool}, tr ∈ logicalAux c info →
    ∃ b, (tr.1, b) ∈ info ∧ tr.2.2 = b.locked := by
  intro info
  induction info with
  | nil => intro c tr h; exact absurd h (List.not_mem_nil tr)
  | cons x rest ih =>
    intro c tr h
    rcases List.mem_cons.mp h with he | hm
    · exact ⟨x.2, by rw [he]; simp, by rw [he]⟩
    · obtain ⟨b, hb1, hb2⟩ := ih hm
      exact ⟨b, List.mem_cons_of_mem _ hb1, hb2⟩

theorem logicalAux_lpos_lt : ∀ {info : List (ℕ × ColorBlock)} {c : ℕ}
    {tr : ℕ × ℕ × Bool}, tr ∈ logicalAux c info →
    tr.2.1 < c + info.length := by
  intro info
  induction info with
  | nil => intro c tr h; exact absurd h (List.not_mem_nil tr)
  | cons x rest ih =>
    intro c tr h
    rcases List.mem_cons.mp h with he | hm
    · rw [he]; simp
    · have := ih hm
      simp only [List.length_cons]
      omega

theorem logicalAux_map_fst : ∀ (info : List (ℕ × ColorBlock)) (c : ℕ),
    (logicalAux c info).map Prod.fst = info.map Prod.fst := by
  intro info
  induction info with
  | nil => intro c; rfl
  | cons x rest ih => intro c; simpa [logicalAux] using ih (c + 1)

theorem logicalAux_pairwise_ne : ∀ {info : List (ℕ × ColorBlock)},
    info.Pairwise (fun x y => x.1 < y.1) → ∀ (c : ℕ),
    (logicalAux c info).Pairwise (fun x y => x.1 ≠ y.1) := by
  intro info
  induction info with
  | nil => intro _ c; exact List.Pairwise.nil
  | cons x rest ih =>
    intro h c
    refine List.Pairwise.cons ?_ (ih (List.Pairwise.of_cons h) (c + 1))
    intro y hy
    obtain ⟨b, hb1, _⟩ := logicalAux_mem hy
    have := List.rel_of_pairwise_cons h hb1
    simp only []
    omega

/-! ### Write-loop lemmas -/

theorem applyLoop_length (f : ℕ → ℕ → (ℚ × ℚ × ℚ) × ℕ) :
    ∀ (L : List (ℕ × ℕ × Bool)) (bs : Blocks) (ctr : ℕ),
    (applyLoop f bs ctr L).length = bs.length := by
  intro L
  induction L with
  | nil => intro bs ctr; rfl
  | cons tr rest ih =>
    intro bs ctr
    simp only [applyLoop]
    split
    · exact ih bs ctr
    · split
      · exact ih bs ctr
      · rw [ih, List.length_set]

theorem applyLoop_shape (f : ℕ → ℕ → (ℚ × ℚ × ℚ) × ℕ) :
    ∀ (L : List (ℕ × ℕ × Bool)) (bs : Blocks) (ctr j : ℕ),
    slotShape ((applyLoop f bs ctr L).getD j none) =
      slotShape (bs.getD j none) := by
  intro L
  induction L with
  | nil => intro bs ctr j; rfl
  | cons tr rest ih =>
    intro bs ctr j
    simp only [applyLoop]
    split
    · exact ih bs ctr j
    · split
      · exact ih bs ctr j
      · rename_i b hb
        rw [ih]
        by_cases hj : tr.1 = j
        · subst hj
          rw [getD_set_self _ (getD_lt_length hb), hb]
          rfl
        · rw [getD_set_ne _ _ hj]

theorem applyLoop_preserve_locked (f : ℕ → ℕ → (ℚ × ℚ × ℚ) × ℕ) :
    ∀ (L : List (ℕ × ℕ × Bool)) (bs : Blocks) (ctr i : ℕ),
    (∀ tr ∈ L, tr.1 = i → tr.2.2 = true) →
    (applyLoop f bs ctr L).getD i none = bs.getD i none := by
  intro L
  induction L with
  | nil => intro bs ctr i _; rfl
  | cons tr rest ih =>
    intro bs ctr i h
    have hrest : ∀ tr' ∈ rest, tr'.1 = i → tr'.2.2 = true :=
      fun tr' hm => h tr' (List.mem_cons_of_mem _ hm)
    simp only [applyLoop]
    split
    · exact ih bs ctr i hrest
    · rename_i hlk
      split
      · exact ih bs ctr i hrest
      · have hne : tr.1 ≠ i := fun he => hlk (h tr (List.mem_cons_self _ _) he)
        rw [ih _ _ _ hrest, getD_set_ne _ _ hne]

theorem applyLoop_pred (Q : Hsv → Prop) (N : ℕ)
    (f : ℕ → ℕ → (ℚ × ℚ × ℚ) × ℕ)
    (hf : ∀ p c, p < N →
      Q (Hsv.mk (f p c).1.1 (f p c).1.2.1 (f p c).1.2.2)) :
    ∀ (L : List (ℕ × ℕ × Bool)), (∀ tr ∈ L, tr.2.1 < N) →
    ∀ (bs : Blocks) (ctr : ℕ),
    (∀ j b, bs.getD j none = some b → Q b.hsv) →
    ∀ j b, (applyLoop f bs ctr L).getD j none = some b → Q b.hsv := by
  intro L
  induction L with
  | nil => intro _ bs ctr hbs j b hj; exact hbs j b hj
  | cons tr rest ih =>
    intro hL bs ctr hbs
    have hrest : ∀ tr' ∈ rest, tr'.2.1 < N :=
      fun tr' hm => hL tr' (List.mem_cons_of_mem _ hm)
    simp only [applyLoop]
    split
    · exact ih hrest bs ctr hbs
    · split
      · exact ih hrest bs ctr hbs
      · rename_i b0 hb0
        refine ih hrest _ _ ?_
        intro j b hj
        by_cases hji : tr.1 = j
        · subst hji
          rw [getD_set_self _ (getD_lt_length hb0)] at hj
          have hb : b = b0.change_color (f tr.2.1 ctr).1.1
              (f tr.2.1 ctr).1.2.1 (f tr.2.1 ctr).1.2.2 := by
            exact Option.some.inj hj.symm
          rw [hb]
          exact hf tr.2.1 ctr (hL tr (List.mem_cons_self _ _))
        · rw [getD_set_ne _ _ hji] at hj
          exact hbs j b hj

theorem applyLoopNR_length (f : ℕ → ℚ × ℚ × ℚ) :
    ∀ (L : List (ℕ × ℕ × Bool)) (bs : Blocks),
    (applyLoopNR f bs L).length = bs.length := by
  intro L
  induction L with
  | nil => intro bs; rfl
  | cons tr rest ih =>
    intro bs
    simp only [applyLoopNR]
    split
    · exact ih bs
    · split
      · exact ih bs
      · rw [ih, List.length_set]

theorem applyLoopNR_shape (f : ℕ → ℚ × ℚ × ℚ) :
    ∀ (L : List (ℕ × ℕ × Bool)) (bs : Blocks) (j : ℕ),
    slotShape ((applyLoopNR f bs L).getD j none) =
      slotShape (bs.getD j none) := by
  intro L
  induction L with
  | nil => intro bs j; rfl
  | cons tr rest ih =>
    intro bs j
    simp only [applyLoopNR]
    split
    · exact ih bs j
    · split
      · exact ih bs j
      · rename_i b hb
        rw [ih]
        by_cases hj : tr.1 = j
        · subst hj
          rw [getD_set_self _ (getD_lt_length hb), hb]
          rfl
        · rw [getD_set_ne _ _ hj]

theorem applyLoopNR_preserve_locked (f : ℕ → ℚ × ℚ × ℚ) :
    ∀ (L : List (ℕ × ℕ × Bool)) (bs : Blocks) (i : ℕ),
    (∀ tr ∈ L, tr.1 = i → tr.2.2 = true) →
    (applyLoopNR f bs L).getD i none = bs.getD i none := by
  intro L
  induction L with
  | nil => intro bs i _; rfl
  | cons tr rest ih =>
    intro bs i h
    have hrest : ∀ tr' ∈ rest, tr'.1 = i → tr'.2.2 = true :=
      fun tr' hm => h tr' (List.mem_cons_of_mem _ hm)
    simp only [applyLoopNR]
    split
    · exact ih bs i hrest
    · rename_i hlk
      split
      · exact ih bs i hrest
      · have hne : tr.1 ≠ i := fun he => hlk (h tr (List.mem_cons_self _ _) he)
        rw [ih _ _ hrest, getD_set_ne _ _ hne]

theorem applyLoopNR_pred (Q : Hsv → Prop) (N : ℕ) (f : ℕ → ℚ × ℚ × ℚ)
    (hf : ∀ p, p < N → Q (Hsv.mk (f p).1 (f p).2.1 (f p).2.2)) :
    ∀ (L : List (ℕ × ℕ × Bool)), (∀ tr ∈ L, tr.2.1 < N) →
    ∀ (bs : Blocks),
    (∀ j b, bs.getD j none = some b → Q b.hsv) →
    ∀ j b, (applyLoopNR f bs L).getD j none = some b → Q b.hsv := by
  intro L
  induction L with
  | nil => intro _ bs hbs j b hj; exact hbs j b hj
  | cons tr rest ih =>
    intro hL bs hbs
    have hrest : ∀ tr' ∈ rest, tr'.2.1 < N :=
      fun tr' hm => hL tr' (List.mem_cons_of_mem _ hm)
    simp only [applyLoopNR]
    split
    · exact ih hrest bs hbs
    · split
      · exact ih hrest bs hbs
      · rename_i b0 hb0
        refine ih hrest _ ?_
        intro j b hj
        by_cases hji : tr.1 = j
        · subst hji
          rw [getD_set_self _ (getD_lt_length hb0)] at hj
          have hb : b = b0.change_color (f tr.2.1).1 (f tr.2.1).2.1
              (f tr.2.1).2.2 := Option.some.inj hj.symm
          rw [hb]
          exact hf tr.2.1 (hL tr (List.mem_cons_self _ _))
        · rw [getD_set_ne _ _ hji] at hj
          exact hbs j b hj

theorem applyLoopNR_not_mem (f : ℕ → ℚ × ℚ × ℚ) :
    ∀ (L : List (ℕ × ℕ × Bool)) (bs : Blocks) (i : ℕ),
    (∀ tr ∈ L, tr.1 ≠ i) →
    (applyLoopNR f bs L).getD i none = bs.getD i none := by
  intro L
  induction L with
  | nil => intro bs i _; rfl
  | cons tr rest ih =>
    intro bs i h
    have hrest : ∀ tr' ∈ rest, tr'.1 ≠ i :=
      fun tr' hm => h tr' (List.mem_cons_of_mem _ hm)
    simp only [applyLoopNR]
    split
    · exact ih bs i hrest
    · split
      · exact ih bs i hrest
      · rw [ih _ _ hrest, getD_set_ne _ _ (h tr (List.mem_cons_self _ _))]

theorem applyLoopNR_extract (f : ℕ → ℚ × ℚ × ℚ) :
    ∀ (L : List (ℕ × ℕ × Bool)) (bs : Blocks),
    L.Pairwise (fun x y => x.1 ≠ y.1) →
    ∀ {a p : ℕ} {b : ColorBlock}, (a, p, false) ∈ L →
    bs.getD a none = some b →
    (applyLoopNR f bs L).getD a none =
      some (b.change_color (f p).1 (f p).2.1 (f p).2.2) := by
  intro L
  induction L with
  | nil => intro bs _ a p b h; exact absurd h (List.not_mem_nil _)
  | cons tr rest ih =>
    intro bs hpw a p b hmem hb
    rcases List.mem_cons.mp hmem with he | hm
    · subst he
      simp only [applyLoopNR]
      rw [if_neg (by simp)]
      rw [hb]
      have hrest : ∀ tr' ∈ rest, tr'.1 ≠ a :=
        fun tr' hm' => (List.rel_of_pairwise_cons hpw hm').symm
      rw [applyLoopNR_not_mem f rest _ a hrest]
      exact getD_set_self _ (getD_lt_length hb)
    · have hne : tr.1 ≠ a := List.rel_of_pairwise_cons hpw hm
      simp only [applyLoopNR]
      split
      · exact ih bs (List.Pairwise.of_cons hpw) hm hb
      · split
        · exact ih bs (List.Pairwise.of_cons hpw) hm hb
        · refine ih _ (List.Pairwise.of_cons hpw) hm ?_
          rw [getD_set_ne _ _ hne]
          exact hb

theorem mem_lockedBlocks {s : PaletteState} {i : ℕ} {b : ColorBlock}
    (hb : s.color_blocks.getD i none = some b) (hl : b.locked = true) :
    b ∈ lockedBlocks s := by
  have h1 : some b ∈ s.color_blocks := getD_mem hb
  have h2 : b ∈ s.color_blocks.filterMap id :=
    List.mem_filterMap.mpr ⟨some b, h1, rfl⟩
  exact List.mem_filter.mpr ⟨h2, hl⟩

theorem lockedBlocks_isEmpty_false {s : PaletteState} {i : ℕ}
    {b : ColorBlock} (hb : s.color_blocks.getD i none = some b)
    (hl : b.locked = true) : (lockedBlocks s).isEmpty = false := by
  have h3 := mem_lockedBlocks hb hl
  cases hLB : lockedBlocks s with
  | nil => rw [hLB] at h3; exact absurd h3 (List.not_mem_nil b)
  | cons hd tl => rfl

theorem locked_false_of_isEmpty {s : PaletteState}
    (he : (lockedBlocks s).isEmpty = true) :
    ∀ i b, s.color_blocks.getD i none = some b → b.locked = false := by
  intro i b hb
  cases hc : b.locked with
  | false => rfl
  | true => rw [lockedBlocks_isEmpty_false hb hc] at he; exact Bool.noConfusion he

theorem lockedBlocks_mem_state {s : PaletteState} {b : ColorBlock}
    (h : b ∈ lockedBlocks s) : some b ∈ s.color_blocks ∧ b.locked = true := by
  have h1 := List.mem_filter.mp h
  refine ⟨?_, h1.2⟩
  obtain ⟨ob, hob, he⟩ := List.mem_filterMap.mp h1.1
  cases ob with
  | none => exact Option.noConfusion he
  | some c => rw [Option.some.inj he] at hob; exact hob

theorem groupAnchor_of_locked (d1 d2 : ℚ) (rc : Hsv) {s : PaletteState}
    (he : (lockedBlocks s).isEmpty = false) :
    groupAnchor d1 d2 rc s =
      (s.color_blocks, get_avg_hue (lockedBlocks s),
        get_avg_saturation (lockedBlocks s),
        get_avg_value (lockedBlocks s)) := by
  simp [groupAnchor, he]

/-- The lock condition on logical triples induced by a locked slot. -/
theorem triples_locked_at (bs : Blocks) (i : ℕ) (b : ColorBlock)
    (hb : bs.getD i none = some b) (hl : b.locked = true) :
    ∀ tr ∈ logicalAux 0 (blockInfoAux 0 bs), tr.1 = i → tr.2.2 = true := by
  intro tr hm hi
  obtain ⟨bb, hbb1, hbb2⟩ := logicalAux_mem hm
  obtain ⟨_, hbb3⟩ := blockInfoAux_mem hbb1
  simp only [Nat.sub_zero] at hbb3
  rw [hi, hb] at hbb3
  rw [hbb2, ← Option.some.inj hbb3]
  exact hl

/-! ### Locked slots survive every theory (claim C1 backbone) -/

theorem generateGrouped_locked_unchanged (P : GroupParams) (rc : Hsv)
    (rng : ℕ → ℚ) (s : PaletteState) {i : ℕ} {b : ColorBlock}
    (hb : s.color_blocks.getD i none = some b) (hl : b.locked = true) :
    (generateGrouped P rc rng s).color_blocks.getD i none = some b := by
  have he := lockedBlocks_isEmpty_false hb hl
  unfold generateGrouped
  rw [groupAnchor_of_locked P.defSat P.defVal rc he]
  simp only []
  split
  · exact hb
  · rw [applyLoop_preserve_locked _ _ _ _ _ (triples_locked_at _ _ _ hb hl)]
    exact hb

theorem generate_analogous_locked_unchanged (rc : Hsv) (rng : ℕ → ℚ)
    (s : PaletteState) {i : ℕ} {b : ColorBlock}
    (hb : s.color_blocks.getD i none = some b) (hl : b.locked = true) :
    (generate_analogous rc rng s).color_blocks.getD i none = some b := by
  have he := lockedBlocks_isEmpty_false hb hl
  unfold generate_analogous
  rw [groupAnchor_of_locked 0.65 0.65 rc he]
  simp only []
  split
  · exact hb
  · rw [applyLoop_preserve_locked _ _ _ _ _ (triples_locked_at _ _ _ hb hl)]
    exact hb

theorem generate_monochrome_locked_unchanged (rc : Hsv) (rng : ℕ → ℚ)
    (s : PaletteState) {i : ℕ} {b : ColorBlock}
    (hb : s.color_blocks.getD i none = some b) (hl : b.locked = true) :
    (generate_monochrome rc rng s).color_blocks.getD i none = some b := by
  have he := lockedBlocks_isEmpty_false hb hl
  unfold generate_monochrome
  simp only [he, Bool.false_eq_true, if_false, Bool.not_false, if_true]
  split
  · exact hb
  · rw [applyLoop_preserve_locked _ _ _ _ _ (triples_locked_at _ _ _ hb hl)]
    exact hb

theorem generate_shades_core_locked_unchanged (toLight : Bool) (bh : ℚ)
    (s : PaletteState) {i : ℕ} {b : ColorBlock}
    (hb : s.color_blocks.getD i none = some b) (hl : b.locked = true) :
    (generate_shades_core toLight bh s.color_blocks s).color_blocks.getD i
      none = some b := by
  unfold generate_shades_core
  simp only []
  split
  · exact hb
  · rw [applyLoopNR_preserve_locked _ _ _ _ (triples_locked_at _ _ _ hb hl)]
    exact hb

theorem generate_shades_locked_unchanged (toLight : Bool) (rc : Hsv)
    (s : PaletteState) {i : ℕ} {b : ColorBlock}
    (hb : s.color_blocks.getD i none = some b) (hl : b.locked = true) :
    (generate_shades toLight rc s).color_blocks.getD i none = some b := by
  have he := lockedBlocks_isEmpty_false hb hl
  unfold generate_shades
  simp only [he, Bool.false_eq_true, if_false]
  exact generate_shades_core_locked_unchanged toLight _ s hb hl

theorem generate_neutrals_locked_unchanged (rc : Hsv) (s : PaletteState)
    {i : ℕ} {b : ColorBlock}
    (hb : s.color_blocks.getD i none = some b) (hl : b.locked = true) :
    (generate_neutrals rc s).color_blocks.getD i none = some b := by
  have he := lockedBlocks_isEmpty_false hb hl
  unfold generate_neutrals
  simp only [he, Bool.not_false, if_true]
  cases hhd : (lockedBlocks s).head? with
  | none =>
    cases hLB : lockedBlocks s with
    | nil => rw [hLB] at he; exact Bool.noConfusion he
    | cons hd tl => rw [hLB] at hhd; exact Option.noConfusion hhd
  | some hd =>
    simp only []
    split
    · exact hb
    · rw [applyLoopNR_preserve_locked _ _ _ _ (triples_locked_at _ _ _ hb hl)]
      exact hb

/-! ### Shape preservation (claim C10 backbone) -/

theorem set_random_shape {bs : Blocks} {b : ColorBlock} (rc : Hsv)
    (hb : bs.getD 0 none = some b) :
    (bs.set 0 (some (b.generate_random_color rc))).length = bs.length ∧
    ∀ j, slotShape
        ((bs.set 0 (some (b.generate_random_color rc))).getD j none) =
      slotShape (bs.getD j none) := by
  refine ⟨List.length_set _ _ _, ?_⟩
  intro j
  by_cases hj : 0 = j
  · subst hj
    rw [getD_set_self _ (getD_lt_length hb), hb]
    rfl
  · rw [getD_set_ne _ _ hj]

theorem groupAnchor_fst_shape (d1 d2 : ℚ) (rc : Hsv) (s : PaletteState) :
    (groupAnchor d1 d2 rc s).1.length = s.color_blocks.length ∧
    ∀ j, slotShape ((groupAnchor d1 d2 rc s).1.getD j none) =
      slotShape (s.color_blocks.getD j none) := by
  unfold groupAnchor
  simp only []
  split
  · split
    · rename_i b hb
      exact set_random_shape rc hb
    · exact ⟨rfl, fun j => rfl⟩
  · exact ⟨rfl, fun j => rfl⟩

theorem generateGrouped_shape (P : GroupParams) (rc : Hsv) (rng : ℕ → ℚ)
    (s : PaletteState) :
    (generateGrouped P rc rng s).color_blocks.length =
      s.color_blocks.length ∧
    ∀ j, slotShape ((generateGrouped P rc rng s).color_blocks.getD j none) =
      slotShape (s.color_blocks.getD j none) := by
  obtain ⟨hlen, hshape⟩ := groupAnchor_fst_shape P.defSat P.defVal rc s
  unfold generateGrouped
  rcases hA : groupAnchor P.defSat P.defVal rc s with ⟨blocks1, bH, bS, bV⟩
  rw [hA] at hlen hshape
  simp only [] at hlen hshape ⊢
  split
  · exact ⟨hlen, hshape⟩
  · exact ⟨(applyLoop_length _ _ _ _).trans hlen,
      fun j => (applyLoop_shape _ _ _ _ j).trans (hshape j)⟩

theorem generate_analogous_shape (rc : Hsv) (rng : ℕ → ℚ)
    (s : PaletteState) :
    (generate_analogous rc rng s).color_blocks.length =
      s.color_blocks.length ∧
    ∀ j, slotShape ((generate_analogous rc rng s).color_blocks.getD j none) =
      slotShape (s.color_blocks.getD j none) := by
  obtain ⟨hlen, hshape⟩ := groupAnchor_fst_shape 0.65 0.65 rc s
  unfold generate_analogous
  rcases hA : groupAnchor 0.65 0.65 rc s with ⟨blocks1, bH, bS, bV⟩
  rw [hA] at hlen hshape
  simp only [] at hlen hshape ⊢
  split
  · exact ⟨hlen, hshape⟩
  · exact ⟨(applyLoop_length _ _ _ _).trans hlen,
      fun j => (applyLoop_shape _ _ _ _ j).trans (hshape j)⟩

theorem generate_monochrome_shape (rc : Hsv) (rng : ℕ → ℚ)
    (s : PaletteState) :
    (generate_monochrome rc rng s).color_blocks.length =
      s.color_blocks.length ∧
    ∀ j, slotShape
        ((generate_monochrome rc rng s).color_blocks.getD j none) =
      slotShape (s.color_blocks.getD j none) := by
  unfold generate_monochrome
  cases hE : (lockedBlocks s).isEmpty with
  | true =>
    simp only [hE, if_true]
    cases hb0 : s.color_blocks.getD 0 none with
    | none =>
      simp only []
      split
      · exact ⟨rfl, fun j => rfl⟩
      · exact ⟨(applyLoop_length _ _ _ _).trans rfl,
          fun j => (applyLoop_shape _ _ _ _ j).trans rfl⟩
    | some b =>
      obtain ⟨hlen, hshape⟩ := set_random_shape rc hb0
      simp only []
      split
      · exact ⟨hlen, hshape⟩
      · exact ⟨(applyLoop_length _ _ _ _).trans hlen,
          fun j => (applyLoop_shape _ _ _ _ j).trans (hshape j)⟩
  | false =>
    simp only [hE, Bool.false_eq_true, if_false]
    split
    · exact ⟨rfl, fun j => rfl⟩
    · exact ⟨(applyLoop_length _ _ _ _).trans rfl,
        fun j => (applyLoop_shape _ _ _ _ j).trans rfl⟩

theorem generate_shades_core_shape (toLight : Bool) (bh : ℚ)
    (blocks1 : Blocks) (s : PaletteState) :
    (generate_shades_core toLight bh blocks1 s).color_blocks.length =
      blocks1.length ∧
    ∀ j, slotShape
        ((generate_shades_core toLight bh blocks1 s).color_blocks.getD j
          none) =
      slotShape (blocks1.getD j none) := by
  unfold generate_shades_core
  simp only []
  split
  · exact ⟨rfl, fun j => rfl⟩
  · exact ⟨applyLoopNR_length _ _ _, fun j => applyLoopNR_shape _ _ _ j⟩

theorem generate_shades_shape (toLight : Bool) (rc : Hsv)
    (s : PaletteState) :
    (generate_shades toLight rc s).color_blocks.length =
      s.color_blocks.length ∧
    ∀ j, slotShape ((generate_shades toLight rc s).color_blocks.getD j none) =
      slotShape (s.color_blocks.getD j none) := by
  unfold generate_shades
  cases hE : (lockedBlocks s).isEmpty with
  | true =>
    simp only [hE, if_true]
    cases hb0 : s.color_blocks.getD 0 none with
    | none => exact ⟨rfl, fun j => rfl⟩
    | some b =>
      obtain ⟨hlen, hshape⟩ := set_random_shape rc hb0
      obtain ⟨hlen2, hshape2⟩ := generate_shades_core_shape toLight rc.hue
        (s.color_blocks.set 0 (some (b.generate_random_color rc))) s
      exact ⟨hlen2.trans hlen, fun j => (hshape2 j).trans (hshape j)⟩
  | false =>
    simp only [hE, Bool.false_eq_true, if_false]
    exact generate_shades_core_shape toLight _ s.color_blocks s

theorem generate_neutrals_shape (rc : Hsv) (s : PaletteState) :
    (generate_neutrals rc s).color_blocks.length =
      s.color_blocks.length ∧
    ∀ j, slotShape ((generate_neutrals rc s).color_blocks.getD j none) =
      slotShape (s.color_blocks.getD j none) := by
  unfold generate_neutrals
  cases hE : (lockedBlocks s).isEmpty with
  | true =>
    simp only [hE, Bool.not_true, Bool.false_eq_true, if_false]
    cases hb0 : s.color_blocks.getD 0 none with
    | none => exact ⟨rfl, fun j => rfl⟩
    | some b =>
      obtain ⟨hlen, hshape⟩ := set_random_shape rc hb0
      simp only []
      split
      · exact ⟨hlen, hshape⟩
      · exact ⟨(applyLoopNR_length _ _ _).trans hlen,
          fun j => (applyLoopNR_shape _ _ _ j).trans (hshape j)⟩
  | false =>
    simp only [hE, Bool.not_false, if_true]
    cases hhd : (lockedBlocks s).head? with
    | none => exact ⟨rfl, fun j => rfl⟩
    | some hd =>
      simp only []
      split
      · exact ⟨rfl, fun j => rfl⟩
      · exact ⟨(applyLoopNR_length _ _ _).trans rfl,
          fun j => (applyLoopNR_shape _ _ _ j).trans rfl⟩

/-! ### Slot-store lemmas (claims C2, C7, C8) -/

theorem positionNone_spec : ∀ {bs : Blocks} {j : ℕ},
    positionNone bs = some j →
    j < bs.length ∧ bs.getD j none = none ∧
      ∀ i, i < j → (bs.getD i none).isSome = true := by
  intro bs
  induction bs with
  | nil => intro j h; exact Option.noConfusion h
  | cons ob rest ih =>
    intro j h
    cases ob with
    | none =>
      have hj : j = 0 := (Option.some.inj h).symm
      subst hj
      exact ⟨by simp, rfl, fun i hi => absurd hi (Nat.not_lt_zero i)⟩
    | some b =>
      simp only [positionNone] at h
      cases hp : positionNone rest with
      | none => rw [hp] at h; exact Option.noConfusion h
      | some k =>
        rw [hp] at h
        have hj : j = k + 1 := (Option.some.inj h).symm
        subst hj
        obtain ⟨h1, h2, h3⟩ := ih hp
        refine ⟨by simpa using Nat.succ_lt_succ h1, h2, ?_⟩
        intro i hi
        cases i with
        | zero => rfl
        | succ i' => exact h3 i' (Nat.lt_of_succ_lt_succ hi)

theorem positionNone_eq_none : ∀ {bs : Blocks}, positionNone bs = none →
    bs.countP (fun b => b.isSome) = bs.length := by
  intro bs
  induction bs with
  | nil => intro _; rfl
  | cons ob rest ih =>
    intro h
    cases ob with
    | none => exact Option.noConfusion h
    | some b =>
      simp only [positionNone, Option.map_eq_none'] at h
      rw [List.countP_cons_of_pos _ _ (by simp), ih h]
      simp

theorem positionNone_isSome {bs : Blocks}
    (h : bs.countP (fun b => b.isSome) < bs.length) :
    ∃ j, positionNone bs = some j := by
  cases hp : positionNone bs with
  | none => exact absurd (positionNone_eq_none hp) (Nat.ne_of_lt h)
  | some j => exact ⟨j, rfl⟩

theorem countP_set_some : ∀ {bs : Blocks} {j : ℕ},
    bs.getD j none = none → j < bs.length →
    ∀ x : ColorBlock, (bs.set j (some x)).countP (fun b => b.isSome) =
      bs.countP (fun b => b.isSome) + 1 := by
  intro bs
  induction bs with
  | nil => intro j _ hl; exact absurd hl (by simp)
  | cons ob rest ih =>
    intro j hj hl x
    cases j with
    | zero =>
      have : ob = none := hj
      subst this
      simp [List.countP_cons]
    | succ k =>
      have hj' : rest.getD k none = none := hj
      have hl' : k < rest.length := by simpa using hl
      simp only [List.set]
      rw [List.countP_cons, List.countP_cons, ih hj' hl' x]
      omega

theorem countP_set_none : ∀ {bs : Blocks} {j : ℕ} {b : ColorBlock},
    bs.getD j none = some b →
    (bs.set j none).countP (fun bl => bl.isSome) + 1 =
      bs.countP (fun bl => bl.isSome) := by
  intro bs
  induction bs with
  | nil =>
    intro j b hj
    have : (([] : Blocks).getD j none) = none := by simp
    rw [this] at hj
    exact Option.noConfusion hj
  | cons ob rest ih =>
    intro j b hj
    cases j with
    | zero =>
      have : ob = some b := hj
      subst this
      simp [List.countP_cons]
    | succ k =>
      have hj' : rest.getD k none = some b := hj
      simp only [List.set]
      rw [List.countP_cons, List.countP_cons, ← ih hj']
      omega

theorem mem_existing_indices {s : PaletteState} {ai : ℕ}
    (h : ai ∈ get_existing_block_indices s) :
    ai < s.color_blocks.length ∧
      (s.color_blocks.getD ai none).isSome = true := by
  obtain ⟨x, hx, he⟩ := List.mem_filterMap.mp h
  have hg := List.mem_enum_iff_get?.mp hx
  by_cases hs : x.2.isSome
  · rw [if_pos hs] at he
    have hai : x.1 = ai := Option.some.inj he
    subst hai
    constructor
    · by_contra hc
      rw [List.get?_eq_none.mpr (Nat.le_of_not_lt hc)] at hg
      exact Option.noConfusion hg
    · have : s.color_blocks.getD x.1 none = x.2 := by
        show (s.color_blocks.get? x.1).getD none = x.2
        rw [hg]
        rfl
      rw [this]
      exact hs
  · rw [if_neg hs] at he
    exact Option.noConfusion he

theorem get_array_index_spec {s : PaletteState} {p ai : ℕ}
    (h : get_array_index_for_logical_position s p = some ai) :
    ai < s.color_blocks.length ∧
      (s.color_blocks.getD ai none).isSome = true :=
  mem_existing_indices (mem_of_get?_eq_some h)

/-- The well-formedness of a reachable palette state: nine slots, the
cached count mirrors occupancy, and occupancy is within `[3, 9]`. -/
def Wf (s : PaletteState) : Prop :=
  s.color_blocks.length = 9 ∧ s.color_block_count = occupiedCount s ∧
    3 ≤ occupiedCount s ∧ occupiedCount s ≤ 9

theorem cmdAdd_wf {s : PaletteState} (h : Wf s) : Wf (cmdAdd s) := by
  obtain ⟨hlen, hcnt, h3, h9⟩ := h
  unfold cmdAdd
  by_cases hlt : s.color_block_count < 9
  · rw [if_pos hlt]
    have hocc : occupiedCount s < 9 := by omega
    have hocc' : s.color_blocks.countP (fun b => b.isSome) <
        s.color_blocks.length := by
      simp only [occupiedCount] at hocc
      omega
    obtain ⟨j, hj⟩ := positionNone_isSome hocc'
    obtain ⟨hjl, hjn, _⟩ := positionNone_spec hj
    unfold add_block
    rw [hj]
    refine ⟨by simpa using hlen, ?_, ?_, ?_⟩ <;>
      simp only [occupiedCount] at hcnt h3 h9 ⊢ <;>
      rw [countP_set_some hjn hjl] <;> omega
  · rw [if_neg hlt]
    exact ⟨hlen, hcnt, h3, h9⟩

theorem cmdDel_wf {s : PaletteState} (h : Wf s) : Wf (cmdDel s) := by
  obtain ⟨hlen, hcnt, h3, h9⟩ := h
  unfold cmdDel
  by_cases hlt : 3 < s.color_block_count
  · rw [if_pos hlt]
    unfold del_block
    cases ha : get_array_index_for_logical_position s s.selected_block_id with
    | none => exact ⟨hlen, hcnt, h3, h9⟩
    | some ai =>
      obtain ⟨hail, hais⟩ := get_array_index_spec ha
      obtain ⟨b, hb⟩ := Option.isSome_iff_exists.mp hais
      have hc := countP_set_none hb
      refine ⟨by simpa using hlen, ?_, ?_, ?_⟩ <;>
        simp only [occupiedCount] at hcnt h3 h9 ⊢ <;> omega
  · rw [if_neg hlt]
    exact ⟨hlen, hcnt, h3, h9⟩

theorem applyCmd_wf {s : PaletteState} (c : Cmd) (h : Wf s) :
    Wf (applyCmd c s) := by
  cases c with
  | add => exact cmdAdd_wf h
  | del => exact cmdDel_wf h

theorem applyCmds_wf (cmds : List Cmd) {s : PaletteState} (h : Wf s) :
    Wf (applyCmds cmds s) := by
  induction cmds generalizing s with
  | nil => exact h
  | cons c rest ih => exact ih (applyCmd_wf c h)

/-! ### Saturation/value bounds (claim C9 backbone) -/

/-- Saturation and value within `[0, 1]`. -/
def satValIn01 (h : Hsv) : Prop :=
  0 ≤ h.saturation ∧ h.saturation ≤ 1 ∧ 0 ≤ h.value ∧ h.value ≤ 1

theorem groupAnchor_fst_pred (Q : Hsv → Prop) (d1 d2 : ℚ) (rc : Hsv)
    (s : PaletteState)
    (hs : ∀ j b, s.color_blocks.getD j none = some b → Q b.hsv)
    (hrc : Q rc) :
    ∀ j b, (groupAnchor d1 d2 rc s).1.getD j none = some b → Q b.hsv := by
  unfold groupAnchor
  simp only []
  split
  · split
    · rename_i b0 hb0
      intro j b hj
      by_cases hj0 : 0 = j
      · subst hj0
        rw [getD_set_self _ (getD_lt_length hb0)] at hj
        rw [← Option.some.inj hj]
        exact hrc
      · rw [getD_set_ne _ _ hj0] at hj
        exact hs j b hj
    · exact hs
  · exact hs

theorem triples_lpos_lt (info : List (ℕ × ColorBlock)) :
    ∀ tr ∈ logicalAux 0 info, tr.2.1 < info.length := by
  intro tr hm
  simpa using logicalAux_lpos_lt hm

theorem groupBody_satval (P : GroupParams) (hL : Bool) (bH bS bV : ℚ)
    (cpg : ℕ) (rng : ℕ → ℚ) (p c : ℕ) :
    satValIn01 (Hsv.mk (groupBody P hL bH bS bV cpg rng p c).1.1
      (groupBody P hL bH bS bV cpg rng p c).1.2.1
      (groupBody P hL bH bS bV cpg rng p c).1.2.2) := by
  refine ⟨le_clampQ _ _ le_rfl, clampQ_le _ _ (by norm_num) le_rfl,
    le_clampQ _ _ le_rfl, clampQ_le _ _ (by norm_num) le_rfl⟩

theorem generateGrouped_satval (P : GroupParams) (rc : Hsv) (rng : ℕ → ℚ)
    (s : PaletteState)
    (hs : ∀ j b, s.color_blocks.getD j none = some b → satValIn01 b.hsv)
    (hrc : satValIn01 rc) :
    ∀ j b, (generateGrouped P rc rng s).color_blocks.getD j none = some b →
      satValIn01 b.hsv := by
  have hb1 := groupAnchor_fst_pred satValIn01 P.defSat P.defVal rc s hs hrc
  unfold generateGrouped
  rcases hA : groupAnchor P.defSat P.defVal rc s with ⟨blocks1, bH, bS, bV⟩
  rw [hA] at hb1
  simp only [] at hb1 ⊢
  split
  · exact hb1
  · exact applyLoop_pred satValIn01 (blockInfoAux 0 blocks1).length _
      (fun p c _ => groupBody_satval P _ bH bS bV _ rng p c) _
      (triples_lpos_lt _) blocks1 0 hb1

theorem analogousBody_satval (bH bS bV : ℚ) (center : ℕ) (rng : ℕ → ℚ)
    (p c : ℕ) :
    satValIn01 (Hsv.mk (analogousBody bH bS bV center rng p c).1.1
      (analogousBody bH bS bV center rng p c).1.2.1
      (analogousBody bH bS bV center rng p c).1.2.2) := by
  refine ⟨le_clampQ _ _ le_rfl, clampQ_le _ _ (by norm_num) le_rfl,
    le_clampQ _ _ le_rfl, clampQ_le _ _ (by norm_num) le_rfl⟩

theorem generate_analogous_satval (rc : Hsv) (rng : ℕ → ℚ)
    (s : PaletteState)
    (hs : ∀ j b, s.color_blocks.getD j none = some b → satValIn01 b.hsv)
    (hrc : satValIn01 rc) :
    ∀ j b, (generate_analogous rc rng s).color_blocks.getD j none = some b →
      satValIn01 b.hsv := by
  have hb1 := groupAnchor_fst_pred satValIn01 0.65 0.65 rc s hs hrc
  unfold generate_analogous
  rcases hA : groupAnchor 0.65 0.65 rc s with ⟨blocks1, bH, bS, bV⟩
  rw [hA] at hb1
  simp only [] at hb1 ⊢
  split
  · exact hb1
  · exact applyLoop_pred satValIn01 (blockInfoAux 0 blocks1).length _
      (fun p c _ => analogousBody_satval bH bS bV _ rng p c) _
      (triples_lpos_lt _) blocks1 0 hb1

theorem getD_of_mem {bs : Blocks} {ob : Option ColorBlock} (h : ob ∈ bs) :
    ∃ i, bs.getD i none = ob := by
  obtain ⟨i, hi⟩ := List.mem_iff_get?.mp h
  exact ⟨i, by show (bs.get? i).getD none = ob; rw [hi]; rfl⟩

theorem step_prog_bounds (lo hi : ℚ) (hlo : 0 ≤ lo) (hlohi : lo ≤ hi)
    (total p : ℕ) (hp : p < total) :
    0 ≤ lo + (if 1 < total then (hi - lo) / ((total - 1 : ℕ) : ℚ) else 0) *
        (p : ℚ) ∧
      lo + (if 1 < total then (hi - lo) / ((total - 1 : ℕ) : ℚ) else 0) *
        (p : ℚ) ≤ hi := by
  by_cases ht : 1 < total
  · rw [if_pos ht]
    have hc : (0:ℚ) < ((total - 1 : ℕ) : ℚ) := by
      have : 0 < total - 1 := by omega
      exact_mod_cast this
    have hpc : (p:ℚ) ≤ ((total - 1 : ℕ) : ℚ) := by
      have : p ≤ total - 1 := by omega
      exact_mod_cast this
    have hp0 : (0:ℚ) ≤ (p:ℚ) := by positivity
    have hstep : 0 ≤ (hi - lo) / ((total - 1 : ℕ) : ℚ) :=
      div_nonneg (by linarith) (le_of_lt hc)
    constructor
    · nlinarith
    · rw [div_mul_eq_mul_div, ← le_sub_iff_add_le',
        div_le_iff₀ hc]
      nlinarith
  · rw [if_neg ht]
    constructor <;> nlinarith

theorem monochromeBody_satval (hL : Bool) (bH aS aV : ℚ) (rng : ℕ → ℚ)
    (total p c : ℕ) (hp : p < total) :
    satValIn01 (Hsv.mk
      (monochromeBody hL bH aS aV
        (if 1 < total then (0.9 - 0.1) / ((total - 1 : ℕ) : ℚ) else 0)
        (if 1 < total then (0.9 - 0.2) / ((total - 1 : ℕ) : ℚ) else 0)
        rng p c).1.1
      (monochromeBody hL bH aS aV
        (if 1 < total then (0.9 - 0.1) / ((total - 1 : ℕ) : ℚ) else 0)
        (if 1 < total then (0.9 - 0.2) / ((total - 1 : ℕ) : ℚ) else 0)
        rng p c).1.2.1
      (monochromeBody hL bH aS aV
        (if 1 < total then (0.9 - 0.1) / ((total - 1 : ℕ) : ℚ) else 0)
        (if 1 < total then (0.9 - 0.2) / ((total - 1 : ℕ) : ℚ) else 0)
        rng p c).1.2.2) := by
  obtain ⟨hs1, hs2⟩ := step_prog_bounds 0.1 0.9 (by norm_num) (by norm_num)
    total p hp
  obtain ⟨hv1, hv2⟩ := step_prog_bounds 0.2 0.9 (by norm_num) (by norm_num)
    total p hp
  unfold monochromeBody
  simp only []
  cases hL with
  | true =>
    simp only [if_true]
    exact ⟨le_clampQ _ _ (by norm_num), clampQ_le _ _ (by norm_num)
      (by norm_num), le_clampQ _ _ (by norm_num),
      clampQ_le _ _ (by norm_num) (by norm_num)⟩
  | false =>
    simp only [Bool.false_eq_true, if_false]
    exact ⟨hs1, le_trans hs2 (by norm_num), hv1,
      le_trans hv2 (by norm_num)⟩

theorem generate_monochrome_satval (rc : Hsv) (rng : ℕ → ℚ)
    (s : PaletteState)
    (hs : ∀ j b, s.color_blocks.getD j none = some b → satValIn01 b.hsv)
    (hrc : satValIn01 rc) :
    ∀ j b, (generate_monochrome rc rng s).color_blocks.getD j none =
      some b → satValIn01 b.hsv := by
  unfold generate_monochrome
  cases hE : (lockedBlocks s).isEmpty with
  | true =>
    simp only [hE, if_true]
    cases hb0 : s.color_blocks.getD 0 none with
    | none =>
      simp only []
      split
      · exact hs
      · exact applyLoop_pred satValIn01 (blockInfoAux 0 s.color_blocks).length
          _ (fun p c hp => monochromeBody_satval _ _ _ _ rng _ p c hp) _
          (triples_lpos_lt _) _ 0 hs
    | some b =>
      have hb1 : ∀ j bb,
          (s.color_blocks.set 0
            (some (b.generate_random_color rc))).getD j none = some bb →
          satValIn01 bb.hsv := by
        intro j bb hj
        by_cases hj0 : 0 = j
        · subst hj0
          rw [getD_set_self _ (getD_lt_length hb0)] at hj
          rw [← Option.some.inj hj]
          exact hrc
        · rw [getD_set_ne _ _ hj0] at hj
          exact hs j bb hj
      simp only []
      split
      · exact hb1
      · exact applyLoop_pred satValIn01
          (blockInfoAux 0 (s.color_blocks.set 0
            (some (b.generate_random_color rc)))).length
          _ (fun p c hp => monochromeBody_satval _ _ _ _ rng _ p c hp) _
          (triples_lpos_lt _) _ 0 hb1
  | false =>
    simp only [hE, Bool.false_eq_true, if_false, Bool.not_false, if_true]
    split
    · exact hs
    · exact applyLoop_pred satValIn01 (blockInfoAux 0 s.color_blocks).length
        _ (fun p c hp => monochromeBody_satval _ _ _ _ rng _ p c hp) _
        (triples_lpos_lt _) _ 0 hs

theorem set_random_pred (Q : Hsv → Prop) {bs : Blocks} {b : ColorBlock}
    (rc : Hsv) (hb0 : bs.getD 0 none = some b)
    (hs : ∀ j bb, bs.getD j none = some bb → Q bb.hsv) (hrc : Q rc) :
    ∀ j bb, (bs.set 0 (some (b.generate_random_color rc))).getD j none =
      some bb → Q bb.hsv := by
  intro j bb hj
  by_cases hj0 : 0 = j
  · subst hj0
    rw [getD_set_self _ (getD_lt_length hb0)] at hj
    rw [← Option.some.inj hj]
    exact hrc
  · rw [getD_set_ne _ _ hj0] at hj
    exact hs j bb hj

theorem info_entry_pred (Q : Hsv → Prop) {bs : Blocks}
    (hb : ∀ j b, bs.getD j none = some b → Q b.hsv)
    {x : ℕ × ColorBlock} (hx : x ∈ blockInfoAux 0 bs) : Q x.2.hsv := by
  obtain ⟨_, h2⟩ := blockInfoAux_mem hx
  exact hb _ _ h2

theorem shadesBody_satval (toLight : Bool) (bH aS aV : ℚ) (aPos : ℕ)
    (sF sT ssF ssT : ℚ) (haS0 : 0 ≤ aS) (haS1 : aS ≤ 1)
    (hssF : 0 ≤ ssF) (hssT : 0 ≤ ssT) (p : ℕ) :
    satValIn01 (Hsv.mk (shadesBody toLight bH aS aV aPos sF sT ssF ssT p).1
      (shadesBody toLight bH aS aV aPos sF sT ssF ssT p).2.1
      (shadesBody toLight bH aS aV aPos sF sT ssF ssT p).2.2) := by
  unfold shadesBody
  simp only []
  refine ⟨?_, ?_, le_clampQ _ _ le_rfl, clampQ_le _ _ (by norm_num) le_rfl⟩
  · split
    · split
      · exact le_min (mul_nonneg hssT (by positivity)) haS0
      · split
        · exact haS0
        · exact le_max_right _ _
    · exact haS0
  · split
    · split
      · exact le_trans (min_le_right _ _) haS1
      · split
        · exact haS1
        · refine max_le ?_ (by norm_num)
          have : 0 ≤ ssF * ((p - aPos : ℕ) : ℚ) :=
            mul_nonneg hssF (by positivity)
          linarith
    · exact haS1

theorem ite_div_nonneg (c : Prop) [Decidable c] (a b : ℚ) (ha : 0 ≤ a)
    (hb : 0 ≤ b) : 0 ≤ if c then a / b else 0 := by
  split_ifs
  · exact div_nonneg ha hb
  · exact le_rfl

theorem generate_shades_core_satval (toLight : Bool) (bh : ℚ)
    (blocks1 : Blocks) (s : PaletteState)
    (hb1 : ∀ j b, blocks1.getD j none = some b → satValIn01 b.hsv) :
    ∀ j b, (generate_shades_core toLight bh blocks1 s).color_blocks.getD j
      none = some b → satValIn01 b.hsv := by
  unfold generate_shades_core
  simp only []
  split
  · exact hb1
  · cases hf : (blockInfoAux 0 blocks1).enum.find?
        (fun x => x.2.2.locked) with
    | some x =>
      have hx2 : x.2 ∈ blockInfoAux 0 blocks1 :=
        mem_of_get?_eq_some
          (List.mem_enum_iff_get?.mp (List.mem_of_find?_eq_some hf))
      obtain ⟨q1, q2, q3, q4⟩ := info_entry_pred satValIn01 hb1 hx2
      simp only []
      exact applyLoopNR_pred satValIn01 (blockInfoAux 0 blocks1).length _
        (fun p _ => shadesBody_satval toLight bh _ _ _ _ _ _ _ q1 q2
          (ite_div_nonneg _ _ _ q1 (by positivity))
          (ite_div_nonneg _ _ _ q1 (by positivity)) p) _
        (triples_lpos_lt _) blocks1 hb1
    | none =>
      cases hh : (blockInfoAux 0 blocks1).head? with
      | some x =>
        have hx2 : x ∈ blockInfoAux 0 blocks1 := List.mem_of_mem_head? hh
        obtain ⟨q1, q2, q3, q4⟩ := info_entry_pred satValIn01 hb1 hx2
        simp only []
        exact applyLoopNR_pred satValIn01 (blockInfoAux 0 blocks1).length _
          (fun p _ => shadesBody_satval toLight bh _ _ _ _ _ _ _ q1 q2
            (ite_div_nonneg _ _ _ q1 (by positivity))
            (ite_div_nonneg _ _ _ q1 (by positivity)) p) _
          (triples_lpos_lt _) blocks1 hb1
      | none =>
        simp only []
        exact applyLoopNR_pred satValIn01 (blockInfoAux 0 blocks1).length _
          (fun p _ => shadesBody_satval toLight bh _ _ _ _ _ _ _ le_rfl
            (by norm_num) (ite_div_nonneg _ _ _ le_rfl (by positivity))
            (ite_div_nonneg _ _ _ le_rfl (by positivity)) p) _
          (triples_lpos_lt _) blocks1 hb1

theorem generate_shades_satval (toLight : Bool) (rc : Hsv)
    (s : PaletteState)
    (hs : ∀ j b, s.color_blocks.getD j none = some b → satValIn01 b.hsv)
    (hrc : satValIn01 rc) :
    ∀ j b, (generate_shades toLight rc s).color_blocks.getD j none =
      some b → satValIn01 b.hsv := by
  unfold generate_shades
  cases hE : (lockedBlocks s).isEmpty with
  | true =>
    simp only [hE, if_true]
    cases hb0 : s.color_blocks.getD 0 none with
    | none => exact hs
    | some b =>
      exact generate_shades_core_satval toLight rc.hue _ s
        (set_random_pred satValIn01 rc hb0 hs hrc)
  | false =>
    simp only [hE, Bool.false_eq_true, if_false]
    exact generate_shades_core_satval toLight _ s.color_blocks s hs

theorem neutralsBody_satval (bH aS aV : ℚ) (aPos total : ℕ)
    (sT sF : ℚ) (haS0 : 0 ≤ aS) (haS1 : aS ≤ 1) (haV1 : aV ≤ 1)
    (hsT : 0 ≤ sT) (hsF : 0 ≤ sF) (p : ℕ) :
    satValIn01 (Hsv.mk (neutralsBody bH aS aV aPos total sT sF p).1
      (neutralsBody bH aS aV aPos total sT sF p).2.1
      (neutralsBody bH aS aV aPos total sT sF p).2.2) := by
  unfold neutralsBody
  simp only []
  refine ⟨?_, ?_, ?_, ?_⟩
  · split
    · exact le_min (mul_nonneg hsT (by positivity)) haS0
    · split
      · exact haS0
      · exact le_max_right _ _
  · split
    · exact le_trans (min_le_right _ _) haS1
    · split
      · exact haS1
      · refine max_le ?_ (by norm_num)
        have : 0 ≤ sF * ((p - aPos : ℕ) : ℚ) := mul_nonneg hsF (by positivity)
        linarith
  · exact le_clampQ _ _ (le_max_right _ _)
  · refine max_le (max_le (by linarith) (by norm_num)) ?_
    exact le_trans (min_le_left _ _) (min_le_right _ _)

theorem generate_neutrals_satval (rc : Hsv) (s : PaletteState)
    (hs : ∀ j b, s.color_blocks.getD j none = some b → satValIn01 b.hsv)
    (hrc : satValIn01 rc) :
    ∀ j b, (generate_neutrals rc s).color_blocks.getD j none = some b →
      satValIn01 b.hsv := by
  unfold generate_neutrals
  cases hE : (lockedBlocks s).isEmpty with
  | true =>
    simp only [hE, Bool.not_true, Bool.false_eq_true, if_false]
    cases hb0 : s.color_blocks.getD 0 none with
    | none => exact hs
    | some b =>
      have hb1 := set_random_pred satValIn01 rc hb0 hs hrc
      obtain ⟨r1, r2, r3, r4⟩ := hrc
      simp only []
      split
      · exact hb1
      · exact applyLoopNR_pred satValIn01
          (blockInfoAux 0 (s.color_blocks.set 0
            (some (b.generate_random_color rc)))).length _
          (fun p _ => neutralsBody_satval _ _ _ _ _ _ _ r1 r2 r4
            (ite_div_nonneg _ _ _ r1 (by positivity))
            (ite_div_nonneg _ _ _ r1 (by positivity)) p) _
          (triples_lpos_lt _) _ hb1
  | false =>
    simp only [hE, Bool.not_false, if_true]
    cases hhd : (lockedBlocks s).head? with
    | none => exact hs
    | some hd =>
      have hhm : hd ∈ lockedBlocks s := List.mem_of_mem_head? hhd
      obtain ⟨hmem, _⟩ := lockedBlocks_mem_state hhm
      obtain ⟨i, hi⟩ := getD_of_mem hmem
      obtain ⟨q1, q2, q3, q4⟩ := hs i hd hi
      simp only []
      split
      · exact hs
      · exact applyLoopNR_pred satValIn01
          (blockInfoAux 0 s.color_blocks).length _
          (fun p _ => neutralsBody_satval _ _ _ _ _ _ _ q1 q2 q4
            (ite_div_nonneg _ _ _ q1 (by positivity))
            (ite_div_nonneg _ _ _ q1 (by positivity)) p) _
          (triples_lpos_lt _) _ hs

/-! ### Hue range after a generate call (claim C4 backbone) -/

/-- Hue of a stored color lies in `[0, 360)` (the well-formed input
range). -/
def hueIn0360 (h : Hsv) : Prop := 0 ≤ h.hue ∧ h.hue < 360

/-- Hue range guaranteed after a generate call: the signed Rust
remainder can leave a slightly negative hue, but never below the
negated jitter rate `-4` and never at or above `360`. -/
def hueAfterGen (h : Hsv) : Prop := -4 ≤ h.hue ∧ h.hue < 360

theorem list_sum_bounds : ∀ (xs : List ℚ) (lo hi : ℚ),
    (∀ x ∈ xs, lo ≤ x ∧ x < hi) →
    lo * xs.length ≤ xs.sum ∧ (xs ≠ [] → xs.sum < hi * xs.length) := by
  intro xs
  induction xs with
  | nil => intro lo hi _; simp
  | cons x rest ih =>
    intro lo hi h
    obtain ⟨hx1, hx2⟩ := h x (List.mem_cons_self _ _)
    obtain ⟨ih1, ih2⟩ := ih lo hi (fun y hy => h y (List.mem_cons_of_mem _ hy))
    constructor
    · simp only [List.sum_cons, List.length_cons]
      push_cast
      linarith
    · intro _
      simp only [List.sum_cons, List.length_cons]
      push_cast
      cases hrest : rest with
      | nil => subst hrest; simp; linarith
      | cons y ys =>
        have : rest.sum < hi * rest.length := ih2 (by rw [hrest]; simp)
        rw [← hrest]
        linarith

theorem list_avg_bounds (xs : List ℚ) (lo hi : ℚ) (hne : xs ≠ [])
    (h : ∀ x ∈ xs, lo ≤ x ∧ x < hi) :
    lo ≤ xs.sum / (xs.length : ℚ) ∧ xs.sum / (xs.length : ℚ) < hi := by
  have hlen : 0 < (xs.length : ℚ) := by
    have : 0 < xs.length := List.length_pos.mpr hne
    exact_mod_cast this
  obtain ⟨h1, h2⟩ := list_sum_bounds xs lo hi h
  constructor
  · rw [le_div_iff₀ hlen]
    linarith
  · rw [div_lt_iff₀ hlen]
    exact h2 hne

theorem avg_hue_bounds {s : PaletteState}
    (hs : ∀ j b, s.color_blocks.getD j none = some b → hueIn0360 b.hsv)
    (hne : (lockedBlocks s).isEmpty = false) :
    0 ≤ get_avg_hue (lockedBlocks s) ∧
      get_avg_hue (lockedBlocks s) < 360 := by
  unfold get_avg_hue
  have hlen : ((lockedBlocks s).map (fun b => b.hsv.hue)).length =
      (lockedBlocks s).length := List.length_map _ _
  have hne' : (lockedBlocks s).map (fun b => b.hsv.hue) ≠ [] := by
    intro hc
    cases hLB : lockedBlocks s with
    | nil => rw [hLB] at hne; exact Bool.noConfusion hne
    | cons hd tl => rw [hLB] at hc; exact List.noConfusion hc
  have hb : ∀ x ∈ (lockedBlocks s).map (fun b => b.hsv.hue),
      0 ≤ x ∧ x < 360 := by
    intro x hx
    obtain ⟨b, hb1, hb2⟩ := List.mem_map.mp hx
    obtain ⟨hmem, _⟩ := lockedBlocks_mem_state hb1
    obtain ⟨i, hi⟩ := getD_of_mem hmem
    rw [← hb2]
    exact hs i b hi
  have := list_avg_bounds _ 0 360 hne' hb
  rw [hlen] at this
  exact this

theorem groupBody_hue (P : GroupParams) (hL : Bool) {bH : ℚ} (bS bV : ℚ)
    (cpg : ℕ) (rng : ℕ → ℚ) (hbH0 : 0 ≤ bH)
    (p c : ℕ) (hrng : -4 ≤ rng c) :
    hueAfterGen (Hsv.mk (groupBody P hL bH bS bV cpg rng p c).1.1
      (groupBody P hL bH bS bV cpg rng p c).1.2.1
      (groupBody P hL bH bS bV cpg rng p c).1.2.2) := by
  unfold groupBody
  simp only []
  have hg : 0 ≤ (if p % P.baseColors = 0 then bH
      else fmod360 (bH + ((p % P.baseColors : ℕ) : ℚ) *
        (360 / (P.baseColors : ℚ)))) := by
    split_ifs
    · exact hbH0
    · refine fmod360_nonneg ?_
      have : (0:ℚ) ≤ ((p % P.baseColors : ℕ) : ℚ) *
          (360 / (P.baseColors : ℚ)) := by positivity
      linarith
  constructor
  · exact neg_le_fmod360 (by norm_num) (by linarith)
  · exact fmod360_lt _

theorem analogousBody_hue (bH bS bV : ℚ) (center : ℕ) (rng : ℕ → ℚ)
    (p c : ℕ) :
    hueAfterGen (Hsv.mk (analogousBody bH bS bV center rng p c).1.1
      (analogousBody bH bS bV center rng p c).1.2.1
      (analogousBody bH bS bV center rng p c).1.2.2) := by
  unfold analogousBody
  simp only []
  have h1 : (0:ℚ) ≤ fmod360 (bH +
      (if p < center then -(((center - p : ℕ) : ℚ) * 10)
        else if center < p then ((p - center : ℕ) : ℚ) * 10 else 0) +
      rng c) + 360 := by
    have := neg_lt_fmod360 (bH +
      (if p < center then -(((center - p : ℕ) : ℚ) * 10)
        else if center < p then ((p - center : ℕ) : ℚ) * 10 else 0) +
      rng c)
    linarith
  exact ⟨le_trans (by norm_num) (fmod360_nonneg h1), fmod360_lt _⟩

theorem monochromeBody_hue (hL : Bool) {bH : ℚ} (aS aV sStep vStep : ℚ)
    (rng : ℕ → ℚ) (hbH0 : 0 ≤ bH) (p c : ℕ)
    (hrng : -4 ≤ rng c) :
    hueAfterGen (Hsv.mk (monochromeBody hL bH aS aV sStep vStep rng p c).1.1
      (monochromeBody hL bH aS aV sStep vStep rng p c).1.2.1
      (monochromeBody hL bH aS aV sStep vStep rng p c).1.2.2) := by
  unfold monochromeBody
  simp only []
  constructor
  · refine neg_le_fmod360 (by norm_num) ?_
    nlinarith
  · exact fmod360_lt _

theorem hueIn0360_imp_after {h : Hsv} (hh : hueIn0360 h) : hueAfterGen h :=
  ⟨le_trans (by norm_num) hh.1, hh.2⟩

theorem groupAnchor_of_empty_some (d1 d2 : ℚ) (rc : Hsv) {s : PaletteState}
    {b : ColorBlock} (hE : (lockedBlocks s).isEmpty = true)
    (hb0 : s.color_blocks.getD 0 none = some b) :
    groupAnchor d1 d2 rc s =
      (s.color_blocks.set 0 (some (b.generate_random_color rc)),
        rc.hue, rc.saturation, rc.value) := by
  unfold groupAnchor
  simp only [hE, if_true]
  rw [hb0]

theorem groupAnchor_of_empty_none (d1 d2 : ℚ) (rc : Hsv) {s : PaletteState}
    (hE : (lockedBlocks s).isEmpty = true)
    (hb0 : s.color_blocks.getD 0 none = none) :
    groupAnchor d1 d2 rc s = (s.color_blocks, 0, d1, d2) := by
  unfold groupAnchor
  simp only [hE, if_true]
  rw [hb0]

theorem generateGrouped_hue (P : GroupParams) (rc : Hsv) (rng : ℕ → ℚ)
    (s : PaletteState)
    (hs : ∀ j b, s.color_blocks.getD j none = some b → hueIn0360 b.hsv)
    (hrc : hueIn0360 rc) (hrng : ∀ i, -4 ≤ rng i) :
    ∀ j b, (generateGrouped P rc rng s).color_blocks.getD j none = some b →
      hueAfterGen b.hsv := by
  have hs' : ∀ j b, s.color_blocks.getD j none = some b → hueAfterGen b.hsv :=
    fun j b hb => hueIn0360_imp_after (hs j b hb)
  unfold generateGrouped
  cases hE : (lockedBlocks s).isEmpty with
  | false =>
    rw [groupAnchor_of_locked P.defSat P.defVal rc hE]
    obtain ⟨ha0, ha1⟩ := avg_hue_bounds hs hE
    simp only []
    split
    · exact hs'
    · exact applyLoop_pred hueAfterGen
        (blockInfoAux 0 s.color_blocks).length _
        (fun p c _ => groupBody_hue P _ _ _ _ rng ha0 p c (hrng c)) _
        (triples_lpos_lt _) _ 0 hs'
  | true =>
    cases hb0 : s.color_blocks.getD 0 none with
    | some b =>
      rw [groupAnchor_of_empty_some P.defSat P.defVal rc hE hb0]
      have hp := set_random_pred hueAfterGen rc hb0 hs'
        (hueIn0360_imp_after hrc)
      simp only []
      split
      · exact hp
      · exact applyLoop_pred hueAfterGen _ _
          (fun p c _ => groupBody_hue P _ _ _ _ rng hrc.1 p c (hrng c)) _
          (triples_lpos_lt _) _ 0 hp
    | none =>
      rw [groupAnchor_of_empty_none P.defSat P.defVal rc hE hb0]
      simp only []
      split
      · exact hs'
      · exact applyLoop_pred hueAfterGen _ _
          (fun p c _ => groupBody_hue P _ _ _ _ rng le_rfl p c (hrng c)) _
          (triples_lpos_lt _) _ 0 hs'

theorem generate_analogous_hue (rc : Hsv) (rng : ℕ → ℚ) (s : PaletteState)
    (hs : ∀ j b, s.color_blocks.getD j none = some b → hueAfterGen b.hsv)
    (hrc : hueAfterGen rc) :
    ∀ j b, (generate_analogous rc rng s).color_blocks.getD j none =
      some b → hueAfterGen b.hsv := by
  have hb1 := groupAnchor_fst_pred hueAfterGen 0.65 0.65 rc s hs hrc
  unfold generate_analogous
  rcases hA : groupAnchor 0.65 0.65 rc s with ⟨blocks1, bH, bS, bV⟩
  rw [hA] at hb1
  simp only [] at hb1 ⊢
  split
  · exact hb1
  · exact applyLoop_pred hueAfterGen (blockInfoAux 0 blocks1).length _
      (fun p c _ => analogousBody_hue bH bS bV _ rng p c) _
      (triples_lpos_lt _) blocks1 0 hb1

theorem generate_monochrome_hue (rc : Hsv) (rng : ℕ → ℚ) (s : PaletteState)
    (hs : ∀ j b, s.color_blocks.getD j none = some b → hueIn0360 b.hsv)
    (hrc : hueIn0360 rc) (hrng : ∀ i, -4 ≤ rng i) :
    ∀ j b, (generate_monochrome rc rng s).color_blocks.getD j none =
      some b → hueAfterGen b.hsv := by
  have hs' : ∀ j b, s.color_blocks.getD j none = some b → hueAfterGen b.hsv :=
    fun j b hb => hueIn0360_imp_after (hs j b hb)
  unfold generate_monochrome
  cases hE : (lockedBlocks s).isEmpty with
  | true =>
    simp only [hE, if_true]
    cases hb0 : s.color_blocks.getD 0 none with
    | none =>
      simp only []
      split
      · exact hs'
      · exact applyLoop_pred hueAfterGen
          (blockInfoAux 0 s.color_blocks).length _
          (fun p c _ => monochromeBody_hue _ _ _ _ _ rng le_rfl p c
            (hrng c)) _ (triples_lpos_lt _) _ 0 hs'
    | some b =>
      have hp := set_random_pred hueAfterGen rc hb0 hs'
        (hueIn0360_imp_after hrc)
      simp only []
      split
      · exact hp
      · exact applyLoop_pred hueAfterGen _ _
          (fun p c _ => monochromeBody_hue _ _ _ _ _ rng hrc.1 p c
            (hrng c)) _ (triples_lpos_lt _) _ 0 hp
  | false =>
    simp only [hE, Bool.false_eq_true, if_false, Bool.not_false, if_true]
    obtain ⟨ha0, ha1⟩ := avg_hue_bounds hs hE
    split
    · exact hs'
    · exact applyLoop_pred hueAfterGen
        (blockInfoAux 0 s.color_blocks).length _
        (fun p c _ => monochromeBody_hue _ _ _ _ _ rng ha0 p c (hrng c)) _
        (triples_lpos_lt _) _ 0 hs'

theorem shadesBody_hue (toLight : Bool) {bH : ℚ} (aS aV : ℚ) (aPos : ℕ)
    (sF sT ssF ssT : ℚ) (hbH0 : 0 ≤ bH) (hbH1 : bH < 360) (p : ℕ) :
    hueAfterGen (Hsv.mk (shadesBody toLight bH aS aV aPos sF sT ssF ssT p).1
      (shadesBody toLight bH aS aV aPos sF sT ssF ssT p).2.1
      (shadesBody toLight bH aS aV aPos sF sT ssF ssT p).2.2) := by
  unfold shadesBody
  exact ⟨by norm_num; linarith, hbH1⟩

theorem generate_shades_core_hue (toLight : Bool) {bh : ℚ}
    (blocks1 : Blocks) (s : PaletteState) (hbh0 : 0 ≤ bh) (hbh1 : bh < 360)
    (hb1 : ∀ j b, blocks1.getD j none = some b → hueAfterGen b.hsv) :
    ∀ j b, (generate_shades_core toLight bh blocks1 s).color_blocks.getD j
      none = some b → hueAfterGen b.hsv := by
  unfold generate_shades_core
  simp only []
  split
  · exact hb1
  · exact applyLoopNR_pred hueAfterGen (blockInfoAux 0 blocks1).length _
      (fun p _ => shadesBody_hue toLight _ _ _ _ _ _ _ hbh0 hbh1 p) _
      (triples_lpos_lt _) blocks1 hb1

theorem generate_shades_hue (toLight : Bool) (rc : Hsv) (s : PaletteState)
    (hs : ∀ j b, s.color_blocks.getD j none = some b → hueIn0360 b.hsv)
    (hrc : hueIn0360 rc) :
    ∀ j b, (generate_shades toLight rc s).color_blocks.getD j none =
      some b → hueAfterGen b.hsv := by
  have hs' : ∀ j b, s.color_blocks.getD j none = some b → hueAfterGen b.hsv :=
    fun j b hb => hueIn0360_imp_after (hs j b hb)
  unfold generate_shades
  cases hE : (lockedBlocks s).isEmpty with
  | true =>
    simp only [hE, if_true]
    cases hb0 : s.color_blocks.getD 0 none with
    | none => exact hs'
    | some b =>
      exact generate_shades_core_hue toLight _ s hrc.1 hrc.2
        (set_random_pred hueAfterGen rc hb0 hs' (hueIn0360_imp_after hrc))
  | false =>
    simp only [hE, Bool.false_eq_true, if_false]
    obtain ⟨ha0, ha1⟩ := avg_hue_bounds hs hE
    exact generate_shades_core_hue toLight s.color_blocks s ha0 ha1 hs'

theorem neutralsBody_hue {bH : ℚ} (aS aV : ℚ) (aPos total : ℕ)
    (sT sF : ℚ) (hbH0 : 0 ≤ bH) (hbH1 : bH < 360) (p : ℕ) :
    hueAfterGen (Hsv.mk (neutralsBody bH aS aV aPos total sT sF p).1
      (neutralsBody bH aS aV aPos total sT sF p).2.1
      (neutralsBody bH aS aV aPos total sT sF p).2.2) := by
  unfold neutralsBody
  exact ⟨by norm_num; linarith, hbH1⟩

theorem generate_neutrals_hue (rc : Hsv) (s : PaletteState)
    (hs : ∀ j b, s.color_blocks.getD j none = some b → hueIn0360 b.hsv)
    (hrc : hueIn0360 rc) :
    ∀ j b, (generate_neutrals rc s).color_blocks.getD j none = some b →
      hueAfterGen b.hsv := by
  have hs' : ∀ j b, s.color_blocks.getD j none = some b → hueAfterGen b.hsv :=
    fun j b hb => hueIn0360_imp_after (hs j b hb)
  unfold generate_neutrals
  cases hE : (lockedBlocks s).isEmpty with
  | true =>
    simp only [hE, Bool.not_true, Bool.false_eq_true, if_false]
    cases hb0 : s.color_blocks.getD 0 none with
    | none => exact hs'
    | some b =>
      have hp := set_random_pred hueAfterGen rc hb0 hs'
        (hueIn0360_imp_after hrc)
      simp only []
      split
      · exact hp
      · exact applyLoopNR_pred hueAfterGen _ _
          (fun p _ => neutralsBody_hue _ _ _ _ _ _ hrc.1 hrc.2 p) _
          (triples_lpos_lt _) _ hp
  | false =>
    simp only [hE, Bool.not_false, if_true]
    obtain ⟨ha0, ha1⟩ := avg_hue_bounds hs hE
    cases hhd : (lockedBlocks s).head? with
    | none => exact hs'
    | some hd =>
      simp only []
      split
      · exact hs'
      · exact applyLoopNR_pred hueAfterGen _ _
          (fun p _ => neutralsBody_hue _ _ _ _ _ _ ha0 ha1 p) _
          (triples_lpos_lt _) _ hs'

/-! ### find? and enum support lemmas -/

theorem find?_eq_of_unique {α : Type} :
    ∀ (l : List α) (p : α → Bool) (k : ℕ) (x : α),
    l.get? k = some x → p x = true →
    (∀ j y, j < k → l.get? j = some y → p y = false) →
    l.find? p = some x := by
  intro l
  induction l with
  | nil => intro p k x hx _ _; exact Option.noConfusion hx
  | cons a rest ih =>
    intro p k x hx hpx hbefore
    cases k with
    | zero =>
      have hax : a = x := Option.some.inj hx
      subst hax
      rw [List.find?_cons_of_pos _ hpx]
    | succ k' =>
      have hpa : p a = false :=
        hbefore 0 a (Nat.succ_pos k') rfl
      rw [List.find?_cons_of_neg _ (by rw [hpa]; exact Bool.false_ne_true)]
      exact ih p k' x hx hpx
        (fun j y hj hy => hbefore (j + 1) y (Nat.succ_lt_succ hj) hy)

theorem enumFrom_get? {α : Type} :
    ∀ (l : List α) (n i : ℕ),
    (List.enumFrom n l).get? i = (l.get? i).map (fun x => (n + i, x)) := by
  intro l
  induction l with
  | nil => intro n i; simp
  | cons a rest ih =>
    intro n i
    cases i with
    | zero => simp [List.enumFrom]
    | succ i' =>
      have he : n + 1 + i' = n + (i' + 1) := by omega
      simpa [List.enumFrom, he] using ih (n + 1) i'

theorem enum_get? {α : Type} (l : List α) (i : ℕ) :
    l.enum.get? i = (l.get? i).map (fun x => (i, x)) := by
  have := enumFrom_get? l 0 i
  simpa [List.enum] using this

theorem slotShape_isSome {x y : Option ColorBlock}
    (h : slotShape x = slotShape y) : x.isSome = y.isSome := by
  cases x <;> cases y <;> simp [slotShape] at h ⊢

theorem blockInfoAux_length_congr :
    ∀ {bs bs' : Blocks}, bs'.length = bs.length →
    (∀ j, (bs'.getD j none).isSome = (bs.getD j none).isSome) →
    ∀ i, (blockInfoAux i bs').length = (blockInfoAux i bs).length := by
  intro bs
  induction bs with
  | nil =>
    intro bs' hlen _ i
    have : bs' = [] := List.length_eq_zero.mp hlen
    subst this
    rfl
  | cons ob rest ih =>
    intro bs' hlen hocc i
    cases bs' with
    | nil => exact absurd hlen (by simp)
    | cons ob' rest' =>
      have hocc0 : ob'.isSome = ob.isSome := hocc 0
      have hocc' : ∀ j, (rest'.getD j none).isSome = (rest.getD j none).isSome :=
        fun j => hocc (j + 1)
      have hlen' : rest'.length = rest.length := by simpa using hlen
      cases ob with
      | none =>
        have hob' : ob' = none := by
          cases ob' with
          | none => rfl
          | some c => simp at hocc0
        subst hob'
        exact ih hlen' hocc' (i + 1)
      | some b0 =>
        obtain ⟨b0', hob'⟩ : ∃ c, ob' = some c := by
          cases ob' with
          | none => simp at hocc0
          | some c => exact ⟨c, rfl⟩
        subst hob'
        simpa [blockInfoAux] using ih hlen' hocc' (i + 1)

theorem get?_exists_of_lt {α : Type} {l : List α} {i : ℕ}
    (h : i < l.length) : ∃ x, l.get? i = some x :=
  List.get?_eq_get h ▸ ⟨l.get ⟨i, h⟩, rfl⟩

theorem shades_value_at (rc : Hsv) (s : PaletteState) (k ak : ℕ)
    (bk : ColorBlock)
    (hk : (blockInfoAux 0 s.color_blocks).get? k = some (ak, bk))
    (huniq : ∀ p a b, (blockInfoAux 0 s.color_blocks).get? p = some (a, b) →
      (b.locked = true ↔ p = k))
    (hv0 : 0 ≤ bk.hsv.value) (hv1 : bk.hsv.value ≤ 1)
    (p : ℕ) (hp : p < (blockInfoAux 0 s.color_blocks).length) (hpk : p ≠ k) :
    ∃ h : Hsv,
      logicalHsv (generate_shades false rc s).color_blocks p = some h ∧
      h.value = if p < k then
          1 - ((1 - bk.hsv.value) / (k : ℚ)) * (p : ℚ)
        else bk.hsv.value - (bk.hsv.value /
          (((blockInfoAux 0 s.color_blocks).length - k : ℕ) : ℚ)) *
          ((p - k : ℕ) : ℚ) := by
  have hbk_locked : bk.locked = true := (huniq k ak bk hk).mpr rfl
  have hmemk : (ak, bk) ∈ blockInfoAux 0 s.color_blocks :=
    mem_of_get?_eq_some hk
  have hgetak : s.color_blocks.getD ak none = some bk := by
    have := (blockInfoAux_mem hmemk).2
    simpa using this
  have hE : (lockedBlocks s).isEmpty = false :=
    lockedBlocks_isEmpty_false hgetak hbk_locked
  have hkt : k < (blockInfoAux 0 s.color_blocks).length := by
    by_contra hc
    rw [List.get?_eq_none.mpr (Nat.le_of_not_lt hc)] at hk
    exact Option.noConfusion hk
  have hred : generate_shades false rc s =
      generate_shades_core false (get_avg_hue (lockedBlocks s))
        s.color_blocks s := by
    unfold generate_shades
    simp only [hE, Bool.false_eq_true, if_false]
  rw [hred]
  have hne : (blockInfoAux 0 s.color_blocks).isEmpty = false := by
    cases hinfo' : blockInfoAux 0 s.color_blocks with
    | nil => rw [hinfo'] at hk; exact Option.noConfusion hk
    | cons a b => rfl
  have hfind : (blockInfoAux 0 s.color_blocks).enum.find?
      (fun x => x.2.2.locked) = some (k, (ak, bk)) := by
    apply find?_eq_of_unique _ _ k
    · rw [enum_get?, hk]
      rfl
    · simpa using hbk_locked
    · intro j y hj hy
      rw [enum_get?] at hy
      cases hyy : (blockInfoAux 0 s.color_blocks).get? j with
      | none => rw [hyy] at hy; exact Option.noConfusion hy
      | some e =>
        rw [hyy] at hy
        have hye : y = (j, e) := (Option.some.inj hy).symm
        subst hye
        have he' : (blockInfoAux 0 s.color_blocks).get? j =
            some (e.1, e.2) := by rw [hyy]
        have hiff := huniq j e.1 e.2 he'
        simp only []
        cases hl : e.2.locked with
        | false => rfl
        | true => exact absurd (hiff.mp hl) (by omega)
  -- the p-th occupied entry
  obtain ⟨ep, hpe⟩ := get?_exists_of_lt hp
  have hpe' : (blockInfoAux 0 s.color_blocks).get? p =
      some (ep.1, ep.2) := by rw [hpe]
  have hbp_locked : ep.2.locked = false := by
    cases hl : ep.2.locked with
    | false => rfl
    | true => exact absurd ((huniq p ep.1 ep.2 hpe').mp hl) hpk
  have hmemp : ep ∈ blockInfoAux 0 s.color_blocks := mem_of_get?_eq_some hpe
  have hgetap : s.color_blocks.getD ep.1 none = some ep.2 := by
    have := (blockInfoAux_mem hmemp).2
    simpa using this
  have htr : ((ep.1, p, false) : ℕ × ℕ × Bool) ∈
      logicalAux 0 (blockInfoAux 0 s.color_blocks) := by
    apply mem_of_get?_eq_some (p := p)
    rw [logicalAux_get?, hpe']
    simp [hbp_locked]
  have hpw := logicalAux_pairwise_ne
    (blockInfoAux_pairwise s.color_blocks 0) 0
  unfold generate_shades_core
  simp only [hne, Bool.false_eq_true, if_false, hfind]
  simp only [Bool.false_and, if_true, if_false]
  have htk : 0 < (blockInfoAux 0 s.color_blocks).length - k := by omega
  rw [if_pos htk]
  set t := (blockInfoAux 0 s.color_blocks).length with ht
  set v := bk.hsv.value with hvv
  set body := shadesBody false (get_avg_hue (lockedBlocks s))
    bk.hsv.saturation v k (v / ((t - k : ℕ) : ℚ))
    (if 0 < k then (1 - v) / (k : ℚ) else 0) 0 0 with hbody
  have hext := applyLoopNR_extract body
    (logicalAux 0 (blockInfoAux 0 s.color_blocks)) s.color_blocks hpw htr
    hgetap
  have hlen2 : (applyLoopNR body s.color_blocks
      (logicalAux 0 (blockInfoAux 0 s.color_blocks))).length =
      s.color_blocks.length :=
    applyLoopNR_length _ _ _
  have hocc : ∀ j, ((applyLoopNR body s.color_blocks
      (logicalAux 0 (blockInfoAux 0 s.color_blocks))).getD j none).isSome =
      (s.color_blocks.getD j none).isSome :=
    fun j => slotShape_isSome (applyLoopNR_shape _ _ _ j)
  obtain ⟨b', hb'1, hb'2⟩ := blockInfoAux_congr hlen2 hocc 0 p hpe'
  have hb'val : b' = ep.2.change_color (body p).1 (body p).2.1
      (body p).2.2 := by
    have := hext
    simp only [Nat.sub_zero] at hb'2
    rw [this] at hb'2
    exact Option.some.inj hb'2.symm
  refine ⟨b'.hsv, ?_, ?_⟩
  · show ((blockInfoAux 0 (applyLoopNR body s.color_blocks
        (logicalAux 0 (blockInfoAux 0 s.color_blocks)))).get? p).map
        (fun x => x.2.hsv) = some b'.hsv
    rw [hb'1]
    rfl
  · rw [hb'val]
    show (body p).2.2 = _
    rw [hbody]
    unfold shadesBody
    simp only [Bool.false_eq_true, if_false]
    by_cases hplt : p < k
    · rw [if_pos hplt, if_pos hplt]
      have hk0 : 0 < k := by omega
      rw [if_pos hk0]
      have hkq : (0:ℚ) < (k:ℚ) := by exact_mod_cast hk0
      have hpq : (p:ℚ) ≤ (k:ℚ) := by
        exact_mod_cast Nat.le_of_lt hplt
      have hstep : 0 ≤ (1 - v) / (k : ℚ) :=
        div_nonneg (by linarith) (le_of_lt hkq)
      have hb1 : (1 - v) / (k : ℚ) * (p : ℚ) ≤ 1 - v := by
        rw [div_mul_eq_mul_div, div_le_iff₀ hkq]
        have hp0 : (0:ℚ) ≤ (p:ℚ) := by positivity
        nlinarith
      refine clampQ_eq_self ?_ ?_
      · linarith
      · have hp0 : (0:ℚ) ≤ (p:ℚ) := by positivity
        nlinarith
    · rw [if_neg hplt, if_neg hplt, if_neg hpk]
      have hkp : k < p := by omega
      have htkq : (0:ℚ) < ((t - k : ℕ) : ℚ) := by exact_mod_cast htk
      have hpkq : ((p - k : ℕ) : ℚ) ≤ ((t - k : ℕ) : ℚ) := by
        have : p - k ≤ t - k := by omega
        exact_mod_cast this
      have hpkq0 : (0:ℚ) ≤ ((p - k : ℕ) : ℚ) := by positivity
      have hstep : 0 ≤ v / ((t - k : ℕ) : ℚ) :=
        div_nonneg hv0 (le_of_lt htkq)
      have hb1 : v / ((t - k : ℕ) : ℚ) * ((p - k : ℕ) : ℚ) ≤ v := by
        rw [div_mul_eq_mul_div, div_le_iff₀ htkq]
        nlinarith
      refine clampQ_eq_self ?_ ?_
      · linarith
      · nlinarith

/-! ### Anchor lemmas (claim C5 backbone) -/

theorem hueDiff_decomp {h1 h0 d : ℚ} (m : ℤ)
    (hx : h1 - h0 = 180 + d + 360 * (m : ℚ)) (hd1 : -7 ≤ d) (hd2 : d ≤ 7) :
    hueDiffFrom180 h1 h0 ≤ 7 := by
  unfold hueDiffFrom180
  obtain ⟨m1, hm1⟩ := fmod360_exists_int (h1 - h0)
  have hlow := neg_lt_fmod360 (h1 - h0)
  have hy0 : 0 ≤ fmod360 (h1 - h0) + 360 := by linarith
  obtain ⟨m2, hm2⟩ := fmod360_exists_int (fmod360 (h1 - h0) + 360)
  have hylow : 0 ≤ fmod360 (fmod360 (h1 - h0) + 360) := fmod360_nonneg hy0
  have hyhigh : fmod360 (fmod360 (h1 - h0) + 360) < 360 := fmod360_lt _
  have hdec : fmod360 (fmod360 (h1 - h0) + 360) =
      180 + d + 360 * ((m - m1 - m2 + 1 : ℤ) : ℚ) := by
    rw [hm2, hm1, hx]
    push_cast
    ring
  have hK0 : (m - m1 - m2 + 1 : ℤ) = 0 := by
    have hq1 : ((m - m1 - m2 + 1 : ℤ) : ℚ) < 1 := by
      by_contra hc
      push_neg at hc
      rw [hdec] at hyhigh
      nlinarith
    have hq2 : (-1 : ℚ) < ((m - m1 - m2 + 1 : ℤ) : ℚ) := by
      by_contra hc
      push_neg at hc
      rw [hdec] at hylow
      nlinarith
    have hi1 : (m - m1 - m2 + 1 : ℤ) < 1 := by exact_mod_cast hq1
    have hi2 : (-1 : ℤ) < (m - m1 - m2 + 1 : ℤ) := by exact_mod_cast hq2
    omega
  rw [hdec, hK0]
  push_cast
  rw [show (180 : ℚ) + d + 360 * 0 - 180 = d by ring]
  rw [abs_le]
  exact ⟨by linarith, by linarith⟩

theorem locked_eq_of_slotShape {x y : Option ColorBlock}
    (h : slotShape x = slotShape y) {bb : ColorBlock} (hx : x = some bb) :
    ∃ cc, y = some cc ∧ cc.locked = bb.locked := by
  subst hx
  cases y with
  | none => simp [slotShape] at h
  | some cc =>
    refine ⟨cc, rfl, ?_⟩
    simp [slotShape] at h
    exact h.2.symm

theorem applyLoop_cons_unlocked (f : ℕ → ℕ → (ℚ × ℚ × ℚ) × ℕ)
    (bs : Blocks) (ctr a p : ℕ) (rest : List (ℕ × ℕ × Bool))
    {b : ColorBlock} (hb : bs.getD a none = some b) :
    applyLoop f bs ctr ((a, p, false) :: rest) =
      applyLoop f (bs.set a (some (b.change_color (f p ctr).1.1
        (f p ctr).1.2.1 (f p ctr).1.2.2))) (f p ctr).2 rest := by
  simp only [applyLoop]
  rw [if_neg (by simp)]
  rw [hb]

theorem groupBody_compl_hue0 (hL : Bool) (bH bS bV : ℚ) (cpg : ℕ)
    (rng : ℕ → ℚ) (c : ℕ) :
    (groupBody complementaryParams hL bH bS bV cpg rng 0 c).1.1 =
      fmod360 (bH + rng c) := by
  unfold groupBody
  norm_num [complementaryParams]

theorem groupBody_compl_hue1 (hL : Bool) (bH bS bV : ℚ) (cpg : ℕ)
    (rng : ℕ → ℚ) (c : ℕ) :
    (groupBody complementaryParams hL bH bS bV cpg rng 1 c).1.1 =
      fmod360 (fmod360 (bH + 180) + rng c) := by
  unfold groupBody
  norm_num [complementaryParams]

theorem groupBody_ctr (P : GroupParams) (hL : Bool) (bH bS bV : ℚ)
    (cpg : ℕ) (rng : ℕ → ℚ) (p c : ℕ) :
    (groupBody P hL bH bS bV cpg rng p c).2 = c + 1 := rfl

theorem complementary_two_slot_hues (rc : Hsv) (rng : ℕ → ℚ)
    (s : PaletteState) (hE : (lockedBlocks s).isEmpty = true)
    (hlen2 : (blockInfoAux 0 s.color_blocks).length = 2) :
    ∃ (bH : ℚ) (h0 h1 : Hsv),
      logicalHsv (generate_complementary rc rng s).color_blocks 0 =
        some h0 ∧
      logicalHsv (generate_complementary rc rng s).color_blocks 1 =
        some h1 ∧
      h0.hue = fmod360 (bH + rng 0) ∧
      h1.hue = fmod360 (fmod360 (bH + 180) + rng 1) := by
  obtain ⟨hlenA, hshapeA⟩ := groupAnchor_fst_shape
    complementaryParams.defSat complementaryParams.defVal rc s
  unfold generate_complementary generateGrouped
  rcases hA : groupAnchor complementaryParams.defSat
    complementaryParams.defVal rc s with ⟨blocks1, bH, bS, bV⟩
  rw [hA] at hlenA hshapeA
  simp only [] at hlenA hshapeA ⊢
  refine ⟨bH, ?_⟩
  have hocc1 : ∀ j, (blocks1.getD j none).isSome =
      (s.color_blocks.getD j none).isSome :=
    fun j => slotShape_isSome (hshapeA j)
  have hlkk : ∀ j bb, blocks1.getD j none = some bb → bb.locked = false := by
    intro j bb hj
    obtain ⟨cc, hcc1, hcc2⟩ := locked_eq_of_slotShape (hshapeA j) hj
    rw [← hcc2]
    exact locked_false_of_isEmpty hE j cc hcc1
  have hilen : (blockInfoAux 0 blocks1).length = 2 := by
    rw [blockInfoAux_length_congr hlenA hocc1 0]
    exact hlen2
  obtain ⟨e0, e1, hinfo1⟩ := List.length_eq_two.mp hilen
  have hg0 : (blockInfoAux 0 blocks1).get? 0 = some e0 := by
    rw [hinfo1]; rfl
  have hg1 : (blockInfoAux 0 blocks1).get? 1 = some e1 := by
    rw [hinfo1]; rfl
  have hb0 : blocks1.getD e0.1 none = some e0.2 := by
    have := (blockInfoAux_mem (mem_of_get?_eq_some hg0)).2
    simpa using this
  have hb1 : blocks1.getD e1.1 none = some e1.2 := by
    have := (blockInfoAux_mem (mem_of_get?_eq_some hg1)).2
    simpa using this
  have hlk0 : e0.2.locked = false := hlkk _ _ hb0
  have hlk1 : e1.2.locked = false := hlkk _ _ hb1
  have hne01 : e0.1 ≠ e1.1 := by
    have hpw := blockInfoAux_pairwise blocks1 0
    rw [hinfo1] at hpw
    have := List.rel_of_pairwise_cons hpw (List.mem_cons_self e1 [])
    omega
  have htrip : logicalAux 0 (blockInfoAux 0 blocks1) =
      [(e0.1, 0, false), (e1.1, 1, false)] := by
    rw [hinfo1]
    cases e0 with
    | mk a0 c0 =>
      cases e1 with
      | mk a1 c1 =>
        simp only [logicalAux]
        simp only [] at hlk0 hlk1
        rw [hlk0, hlk1]
  have hie : (blockInfoAux 0 blocks1).isEmpty = false := by
    rw [hinfo1]; rfl
  simp only [hie, Bool.false_eq_true, if_false, htrip]
  set f := groupBody complementaryParams (!(lockedBlocks s).isEmpty) bH bS
    bV (((blockInfoAux 0 blocks1).length + complementaryParams.baseColors -
      1) / complementaryParams.baseColors) rng with hf
  rw [applyLoop_cons_unlocked f blocks1 0 e0.1 0 _ hb0]
  have hb1' : (blocks1.set e0.1 (some (e0.2.change_color (f 0 0).1.1
      (f 0 0).1.2.1 (f 0 0).1.2.2))).getD e1.1 none = some e1.2 := by
    rw [getD_set_ne _ _ hne01]
    exact hb1
  rw [applyLoop_cons_unlocked f _ _ e1.1 1 _ hb1']
  simp only [applyLoop]
  set X0 := e0.2.change_color (f 0 0).1.1 (f 0 0).1.2.1 (f 0 0).1.2.2
    with hX0
  set ctr1 := (f 0 0).2 with hctr1
  set X1 := e1.2.change_color (f 1 ctr1).1.1 (f 1 ctr1).1.2.1
    (f 1 ctr1).1.2.2 with hX1
  set blocks2 := (blocks1.set e0.1 (some X0)).set e1.1 (some X1) with hbl2
  have hlt0 : e0.1 < blocks1.length := getD_lt_length hb0
  have hlt1 : e1.1 < blocks1.length := getD_lt_length hb1
  have hget20 : blocks2.getD e0.1 none = some X0 := by
    rw [hbl2, getD_set_ne _ _ (Ne.symm hne01), getD_set_self _ hlt0]
  have hget21 : blocks2.getD e1.1 none = some X1 := by
    rw [hbl2, getD_set_self _ (by simpa using hlt1)]
  have hlen2' : blocks2.length = blocks1.length := by
    rw [hbl2, List.length_set, List.length_set]
  have hocc2 : ∀ j, (blocks2.getD j none).isSome =
      (blocks1.getD j none).isSome := by
    intro j
    by_cases hj1 : e1.1 = j
    · subst hj1
      rw [hget21, hb1]
      rfl
    · by_cases hj0 : e0.1 = j
      · subst hj0
        rw [hget20, hb0]
        rfl
      · rw [hbl2, getD_set_ne _ _ hj1, getD_set_ne _ _ hj0]
  have hg0' : (blockInfoAux 0 blocks1).get? 0 = some (e0.1, e0.2) := by
    rw [hg0]
  have hg1' : (blockInfoAux 0 blocks1).get? 1 = some (e1.1, e1.2) := by
    rw [hg1]
  obtain ⟨b0', hb0'1, hb0'2⟩ := blockInfoAux_congr hlen2' hocc2 0 0 hg0'
  obtain ⟨b1', hb1'1, hb1'2⟩ := blockInfoAux_congr hlen2' hocc2 0 1 hg1'
  simp only [Nat.sub_zero] at hb0'2 hb1'2
  have hb0'X : b0' = X0 := by
    rw [hget20] at hb0'2
    exact Option.some.inj hb0'2.symm
  have hb1'X : b1' = X1 := by
    rw [hget21] at hb1'2
    exact Option.some.inj hb1'2.symm
  refine ⟨X0.hsv, X1.hsv, ?_, ?_, ?_, ?_⟩
  · show ((blockInfoAux 0 blocks2).get? 0).map (fun x => x.2.hsv) =
      some X0.hsv
    rw [hb0'1, hb0'X]
    rfl
  · show ((blockInfoAux 0 blocks2).get? 1).map (fun x => x.2.hsv) =
      some X1.hsv
    rw [hb1'1, hb1'X]
    rfl
  · rw [hX0]
    show (f 0 0).1.1 = fmod360 (bH + rng 0)
    rw [hf]
    exact groupBody_compl_hue0 _ _ _ _ _ rng 0
  · rw [hX1]
    show (f 1 ctr1).1.1 = fmod360 (fmod360 (bH + 180) + rng 1)
    have hc1 : ctr1 = 1 := by
      rw [hctr1, hf]
      rfl
    rw [hc1, hf]
    exact groupBody_compl_hue1 _ _ _ _ _ rng 1

/-! ### Claim theorems -/

/-- C1: For every theory and every palette state, a `generate` call
leaves the Color (hue, saturation, value) of every occupied, locked
slot unchanged — in fact the whole slot entry is preserved verbatim. -/
theorem claim_C1_locked_slot_unchanged (t : ColorTheories) (rc : Hsv)
    (rng : ℕ → ℚ) (s : PaletteState) {i : ℕ} {b : ColorBlock}
    (hb : s.color_blocks.getD i none = some b) (hl : b.locked = true) :
    (generate t rc rng s).color_blocks.getD i none = some b := by
  cases t with
  | Analogous => exact generate_analogous_locked_unchanged rc rng s hb hl
  | Complementary =>
    exact generateGrouped_locked_unchanged complementaryParams rc rng s hb hl
  | Triad => exact generateGrouped_locked_unchanged triadParams rc rng s hb hl
  | Tetrad =>
    exact generateGrouped_locked_unchanged tetradParams rc rng s hb hl
  | Hexad => exact generateGrouped_locked_unchanged hexadParams rc rng s hb hl
  | Monochrome => exact generate_monochrome_locked_unchanged rc rng s hb hl
  | Shadows => exact generate_shades_locked_unchanged false rc s hb hl
  | Lights => exact generate_shades_locked_unchanged true rc s hb hl
  | Neutrals => exact generate_neutrals_locked_unchanged rc s hb hl

/-- Witness for C1: slot 1 of `sW1` is occupied and locked, and a Tetrad
generate leaves it verbatim. -/
theorem claim_C1_locked_slot_unchanged_witness :
    (sW1.color_blocks.getD 1 none = some bW2 ∧ bW2.locked = true) ∧
    (generate ColorTheories.Tetrad rcW rngW sW1).color_blocks.getD 1 none =
      some bW2 :=
  ⟨⟨rfl, rfl⟩,
    claim_C1_locked_slot_unchanged ColorTheories.Tetrad rcW rngW sW1 rfl rfl⟩

/-- C10: For every theory and every palette state, a `generate` call
preserves the number of slots, each slot's occupancy and each occupied
slot's id and lock flag; only the HSV color may change. -/
theorem claim_C10_generate_preserves_shape (t : ColorTheories) (rc : Hsv)
    (rng : ℕ → ℚ) (s : PaletteState) :
    (generate t rc rng s).color_blocks.length = s.color_blocks.length ∧
    ∀ i, slotShape ((generate t rc rng s).color_blocks.getD i none) =
      slotShape (s.color_blocks.getD i none) := by
  cases t with
  | Analogous => exact generate_analogous_shape rc rng s
  | Complementary => exact generateGrouped_shape complementaryParams rc rng s
  | Triad => exact generateGrouped_shape triadParams rc rng s
  | Tetrad => exact generateGrouped_shape tetradParams rc rng s
  | Hexad => exact generateGrouped_shape hexadParams rc rng s
  | Monochrome => exact generate_monochrome_shape rc rng s
  | Shadows => exact generate_shades_shape false rc s
  | Lights => exact generate_shades_shape true rc s
  | Neutrals => exact generate_neutrals_shape rc s

/-- C2: From any well-formed state (nine slots, count field mirroring
occupancy, occupancy in `[3, 9]`), every sequence of add and remove
commands keeps the occupied count in `[3, 9]`; an add at 9 occupied and
a remove at 3 occupied are exact no-ops. -/
theorem claim_C2_add_remove_invariant (s : PaletteState) (hwf : Wf s) :
    (∀ cmds : List Cmd, 3 ≤ occupiedCount (applyCmds cmds s) ∧
      occupiedCount (applyCmds cmds s) ≤ 9) ∧
    (occupiedCount s = 9 → cmdAdd s = s) ∧
    (occupiedCount s = 3 → cmdDel s = s) := by
  refine ⟨fun cmds => ⟨(applyCmds_wf cmds hwf).2.2.1,
    (applyCmds_wf cmds hwf).2.2.2⟩, ?_, ?_⟩
  · intro h9
    unfold cmdAdd
    rw [if_neg (by rw [hwf.2.1, h9]; omega)]
  · intro h3
    unfold cmdDel
    rw [if_neg (by rw [hwf.2.1, h3]; omega)]

/-- Witness for C2: the default five-slot palette is well-formed and a
concrete add/remove sequence keeps the occupancy inside `[3, 9]`. -/
theorem claim_C2_add_remove_invariant_witness :
    Wf sW2 ∧
    (3 ≤ occupiedCount (applyCmds [Cmd.add, Cmd.del, Cmd.del] sW2) ∧
      occupiedCount (applyCmds [Cmd.add, Cmd.del, Cmd.del] sW2) ≤ 9) :=
  ⟨by constructor <;> first | rfl | (constructor <;> first | rfl | decide),
    (claim_C2_add_remove_invariant sW2
      (by constructor <;> first | rfl | (constructor <;>
        first | rfl | decide))).1 [Cmd.add, Cmd.del, Cmd.del]⟩

/-- C7: Operations addressed at a missing slot are silent no-ops: a lock
toggle at ordinal `n` with empty storage index `n - 1`, and the
logical-position operations (lock toggle, delete, color edit) when the
selected logical position maps to no slot. -/
theorem claim_C7_missing_target_noop (s : PaletteState) (n : ℕ)
    (newHsv : Hsv) :
    (1 ≤ n → s.color_blocks.getD (n - 1) none = none →
      toggle_lock s n = s) ∧
    (get_array_index_for_logical_position s s.selected_block_id = none →
      lockSelected s = s ∧ del_block s = s ∧ applyEditColor newHsv s = s) := by
  constructor
  · intro _ h
    unfold toggle_lock
    rw [h]
  · intro h
    refine ⟨?_, ?_, ?_⟩
    · unfold lockSelected
      rw [h]
    · unfold del_block
      rw [h]
    · unfold applyEditColor
      rw [h]

/-- Witness for C7: on `sW7` (two occupied slots, selection 5) toggling
ordinal 3 and all selected-slot operations change nothing. -/
theorem claim_C7_missing_target_noop_witness :
    ((1 ≤ 3 ∧ sW7.color_blocks.getD 2 none = none) ∧
      get_array_index_for_logical_position sW7 sW7.selected_block_id =
        none) ∧
    toggle_lock sW7 3 = sW7 ∧ lockSelected sW7 = sW7 ∧
      del_block sW7 = sW7 ∧ applyEditColor rcW sW7 = sW7 :=
  ⟨⟨⟨by decide, rfl⟩, rfl⟩,
    (claim_C7_missing_target_noop sW7 3 rcW).1 (by decide) rfl,
    ((claim_C7_missing_target_noop sW7 3 rcW).2 rfl).1,
    ((claim_C7_missing_target_noop sW7 3 rcW).2 rfl).2.1,
    ((claim_C7_missing_target_noop sW7 3 rcW).2 rfl).2.2⟩

/-- C8: With fewer than nine occupied slots, `add_block` creates an
unlocked block with the neutral placeholder color `h=s=v=0` exactly at
the lowest-index empty slot, leaves every other slot unchanged and
increments the count. -/
theorem claim_C8_add_at_lowest_empty (s : PaletteState)
    (hlen : s.color_blocks.length = 9) (hocc : occupiedCount s < 9) :
    ∃ j, j < 9 ∧ s.color_blocks.getD j none = none ∧
      (∀ i, i < j → (s.color_blocks.getD i none).isSome = true) ∧
      (add_block s).color_blocks.getD j none =
        some (ColorBlock.new j 0 0 0) ∧
      (ColorBlock.new j 0 0 0).locked = false ∧
      (ColorBlock.new j 0 0 0).hsv =
        { hue := 0, saturation := 0, value := 0 } ∧
      (∀ i, i ≠ j → (add_block s).color_blocks.getD i none =
        s.color_blocks.getD i none) ∧
      (add_block s).color_block_count = s.color_block_count + 1 := by
  have hocc' : s.color_blocks.countP (fun b => b.isSome) <
      s.color_blocks.length := by
    unfold occupiedCount at hocc
    omega
  obtain ⟨j, hj⟩ := positionNone_isSome hocc'
  obtain ⟨hjl, hjn, hjb⟩ := positionNone_spec hj
  unfold add_block
  rw [hj]
  refine ⟨j, by omega, hjn, hjb, ?_, rfl, rfl, ?_, rfl⟩
  · exact getD_set_self _ hjl
  · intro i hi
    exact getD_set_ne _ _ (fun he => hi he.symm)

/-- Witness for C8: adding to the default five-slot palette fills the
lowest empty slot (index 5). -/
theorem claim_C8_add_at_lowest_empty_witness :
    (sW2.color_blocks.length = 9 ∧ occupiedCount sW2 < 9) ∧
    ∃ j, j < 9 ∧ sW2.color_blocks.getD j none = none ∧
      (∀ i, i < j → (sW2.color_blocks.getD i none).isSome = true) ∧
      (add_block sW2).color_blocks.getD j none =
        some (ColorBlock.new j 0 0 0) ∧
      (ColorBlock.new j 0 0 0).locked = false ∧
      (ColorBlock.new j 0 0 0).hsv =
        { hue := 0, saturation := 0, value := 0 } ∧
      (∀ i, i ≠ j → (add_block sW2).color_blocks.getD i none =
        sW2.color_blocks.getD i none) ∧
      (add_block sW2).color_block_count = sW2.color_block_count + 1 :=
  ⟨⟨rfl, by decide⟩, claim_C8_add_at_lowest_empty sW2 rfl (by decide)⟩

/-- C9: For every theory, every random color with sat/val in `[0, 1]`
and every state whose stored saturations and values lie in `[0, 1]`,
after a `generate` call every occupied slot's saturation and value lie
in `[0, 1]`. -/
theorem claim_C9_satval_in_unit (t : ColorTheories) (rc : Hsv)
    (rng : ℕ → ℚ) (s : PaletteState)
    (hs : ∀ j b, s.color_blocks.getD j none = some b → satValIn01 b.hsv)
    (hrc : satValIn01 rc) :
    ∀ j b, (generate t rc rng s).color_blocks.getD j none = some b →
      satValIn01 b.hsv := by
  cases t with
  | Analogous => exact generate_analogous_satval rc rng s hs hrc
  | Complementary =>
    exact generateGrouped_satval complementaryParams rc rng s hs hrc
  | Triad => exact generateGrouped_satval triadParams rc rng s hs hrc
  | Tetrad => exact generateGrouped_satval tetradParams rc rng s hs hrc
  | Hexad => exact generateGrouped_satval hexadParams rc rng s hs hrc
  | Monochrome => exact generate_monochrome_satval rc rng s hs hrc
  | Shadows => exact generate_shades_satval false rc s hs hrc
  | Lights => exact generate_shades_satval true rc s hs hrc
  | Neutrals => exact generate_neutrals_satval rc s hs hrc

/-- Witness for C9 on `sW1` with the Lights theory. -/
theorem claim_C9_satval_in_unit_witness :
    ((∀ j b, sW1.color_blocks.getD j none = some b → satValIn01 b.hsv) ∧
      satValIn01 rcW) ∧
    (∀ j b, (generate ColorTheories.Lights rcW rngW sW1).color_blocks.getD
      j none = some b → satValIn01 b.hsv) := by
  have hs : ∀ j b, sW1.color_blocks.getD j none = some b →
      satValIn01 b.hsv := by
    intro j b hb
    have hj : j < sW1.color_blocks.length := getD_lt_length hb
    have hj9 : j < 9 := by simpa [sW1] using hj
    interval_cases j
    · rw [← Option.some.inj hb]
      norm_num [satValIn01, bW1]
    · rw [← Option.some.inj hb]
      norm_num [satValIn01, bW2]
    all_goals simp [sW1] at hb
  have hrc : satValIn01 rcW := by norm_num [satValIn01, rcW]
  exact ⟨⟨hs, hrc⟩,
    claim_C9_satval_in_unit ColorTheories.Lights rcW rngW sW1 hs hrc⟩

/-- C4 (counterexample to the claim as stated): on a well-formed
one-slot palette with in-range hues and integer draws in `[-4, 4)`, a
Complementary generate writes hue `-4`, which does not lie in
`[0, 360)`. -/
theorem claim_C4_counterexample :
    hueIn0360 bW1.hsv ∧ hueIn0360 rcC4 ∧
    (∀ i, ∃ z : ℤ, rngC4 i = (z : ℚ) ∧ -4 ≤ z ∧ z < 4) ∧
    ((generate ColorTheories.Complementary rcC4 rngC4
        sC4).color_blocks.getD 0 none).map (fun b => b.hsv.hue) =
      some (-4) ∧
    ¬ (0 : ℚ) ≤ -4 := by
  refine ⟨by norm_num [hueIn0360, bW1], by norm_num [hueIn0360, rcC4],
    fun i => ⟨-4, by norm_num [rngC4], by norm_num, by norm_num⟩, ?_,
    by norm_num⟩
  norm_num [generate, generate_complementary, generateGrouped,
    groupAnchor, lockedBlocks, sC4, rcC4, rngC4, bW1, blockInfoAux,
    logicalAux, applyLoop, groupBody, complementaryParams, fmod360,
    clampQ, ColorBlock.generate_random_color, ColorBlock.change_color,
    List.filter, List.filterMap, List.isEmpty]

/-- C4 (amended): For every theory, every state with stored hues in
`[0, 360)`, every random color with hue in `[0, 360)` and every jitter
stream bounded below by `-4`, each occupied slot's hue after `generate`
lies in `[-4, 360)`: only Analogous renormalizes negative values, the
other theories use the sign-keeping Rust remainder, which can leave a
hue as low as the negated jitter rate. -/
theorem claim_C4_amended_hue_range (t : ColorTheories) (rc : Hsv)
    (rng : ℕ → ℚ) (s : PaletteState)
    (hs : ∀ j b, s.color_blocks.getD j none = some b → hueIn0360 b.hsv)
    (hrc : hueIn0360 rc) (hrng : ∀ i, -4 ≤ rng i) :
    ∀ j b, (generate t rc rng s).color_blocks.getD j none = some b →
      hueAfterGen b.hsv := by
  cases t with
  | Analogous =>
    exact generate_analogous_hue rc rng s
      (fun j b hb => hueIn0360_imp_after (hs j b hb))
      (hueIn0360_imp_after hrc)
  | Complementary =>
    exact generateGrouped_hue complementaryParams rc rng s hs hrc hrng
  | Triad => exact generateGrouped_hue triadParams rc rng s hs hrc hrng
  | Tetrad => exact generateGrouped_hue tetradParams rc rng s hs hrc hrng
  | Hexad => exact generateGrouped_hue hexadParams rc rng s hs hrc hrng
  | Monochrome => exact generate_monochrome_hue rc rng s hs hrc hrng
  | Shadows => exact generate_shades_hue false rc s hs hrc
  | Lights => exact generate_shades_hue true rc s hs hrc
  | Neutrals => exact generate_neutrals_hue rc s hs hrc

/-- Witness for the amended C4 on `sW1` with the Monochrome theory. -/
theorem claim_C4_amended_hue_range_witness :
    ((∀ j b, sW1.color_blocks.getD j none = some b → hueIn0360 b.hsv) ∧
      hueIn0360 rcW ∧ (∀ i, -4 ≤ rngW i)) ∧
    (∀ j b, (generate ColorTheories.Monochrome rcW rngW
      sW1).color_blocks.getD j none = some b → hueAfterGen b.hsv) := by
  have hs : ∀ j b, sW1.color_blocks.getD j none = some b →
      hueIn0360 b.hsv := by
    intro j b hb
    have hj : j < sW1.color_blocks.length := getD_lt_length hb
    have hj9 : j < 9 := by simpa [sW1] using hj
    interval_cases j
    · rw [← Option.some.inj hb]
      norm_num [hueIn0360, bW1]
    · rw [← Option.some.inj hb]
      norm_num [hueIn0360, bW2]
    all_goals simp [sW1] at hb
  have hrc : hueIn0360 rcW := by norm_num [hueIn0360, rcW]
  have hrng : ∀ i, -4 ≤ rngW i := fun i => by norm_num [rngW]
  exact ⟨⟨hs, hrc, hrng⟩,
    claim_C4_amended_hue_range ColorTheories.Monochrome rcW rngW sW1 hs
      hrc hrng⟩

/-- C3 (counterexample to the claim as stated): on the two-slot
lock-free palette `sW3`, with the admissible extreme draws `-4` and
`3`, the two resulting hues are `-4` and `183`: their circular distance
from the 180° complement is `7 > 4`. -/
theorem claim_C3_counterexample :
    (lockedBlocks sW3).isEmpty = true ∧
    (blockInfoAux 0 sW3.color_blocks).length = 2 ∧
    (∀ i, ∃ z : ℤ, rngC3 i = (z : ℚ) ∧ -4 ≤ z ∧ z < 4) ∧
    (logicalHsv (generate_complementary rcC3 rngC3 sW3).color_blocks
      0).map Hsv.hue = some (-4) ∧
    (logicalHsv (generate_complementary rcC3 rngC3 sW3).color_blocks
      1).map Hsv.hue = some 183 ∧
    ¬ (hueDiffFrom180 183 (-4) ≤ 4) := by
  refine ⟨by decide, by decide, ?_, ?_, ?_, ?_⟩
  · intro i
    by_cases hi : i = 0
    · exact ⟨-4, by norm_num [rngC3, hi], by norm_num, by norm_num⟩
    · exact ⟨3, by norm_num [rngC3, hi], by norm_num, by norm_num⟩
  · norm_num [generate_complementary, generateGrouped, groupAnchor,
      lockedBlocks, sW3, rcC3, rngC3, bW1, bW3, blockInfoAux, logicalAux,
      applyLoop, groupBody, complementaryParams, logicalHsv, fmod360,
      clampQ, ColorBlock.generate_random_color, ColorBlock.change_color,
      List.filter, List.filterMap, List.isEmpty]
  · norm_num [generate_complementary, generateGrouped, groupAnchor,
      lockedBlocks, sW3, rcC3, rngC3, bW1, bW3, blockInfoAux, logicalAux,
      applyLoop, groupBody, complementaryParams, logicalHsv, fmod360,
      clampQ, ColorBlock.generate_random_color, ColorBlock.change_color,
      List.filter, List.filterMap, List.isEmpty]
  · norm_num [hueDiffFrom180, fmod360]

/-- C3 (amended): After a Complementary `generate` on a palette with
exactly 2 occupied slots and no locked slots, with integer jitter draws
in `[-4, 4)`, the two resulting hues differ by 180° within ±7°
(the difference of the two independent per-slot jitters), modulo 360. -/
theorem claim_C3_amended_complementary (rc : Hsv) (rng : ℕ → ℚ)
    (s : PaletteState) (hE : (lockedBlocks s).isEmpty = true)
    (hlen2 : (blockInfoAux 0 s.color_blocks).length = 2)
    (hz0 : ∃ z : ℤ, rng 0 = (z : ℚ) ∧ -4 ≤ z ∧ z < 4)
    (hz1 : ∃ z : ℤ, rng 1 = (z : ℚ) ∧ -4 ≤ z ∧ z < 4) :
    ∃ hsv0 hsv1 : Hsv,
      logicalHsv (generate_complementary rc rng s).color_blocks 0 =
        some hsv0 ∧
      logicalHsv (generate_complementary rc rng s).color_blocks 1 =
        some hsv1 ∧
      hueDiffFrom180 hsv1.hue hsv0.hue ≤ 7 := by
  obtain ⟨bH, hsv0, hsv1, hL0, hL1, hh0, hh1⟩ :=
    complementary_two_slot_hues rc rng s hE hlen2
  obtain ⟨z0, hz0e, hz0a, hz0b⟩ := hz0
  obtain ⟨z1, hz1e, hz1a, hz1b⟩ := hz1
  refine ⟨hsv0, hsv1, hL0, hL1, ?_⟩
  obtain ⟨m0, hm0⟩ := fmod360_exists_int (bH + rng 0)
  obtain ⟨mi, hmi⟩ := fmod360_exists_int (bH + 180)
  obtain ⟨mo, hmo⟩ := fmod360_exists_int (fmod360 (bH + 180) + rng 1)
  refine @hueDiff_decomp hsv1.hue hsv0.hue ((z1 : ℚ) - (z0 : ℚ))
    (m0 - mi - mo) ?_ ?_ ?_
  · rw [hh1, hh0, hmo, hmi, hm0, hz0e, hz1e]
    push_cast
    ring
  · have : (-7 : ℤ) ≤ z1 - z0 := by omega
    have hc : ((z1 - z0 : ℤ) : ℚ) = (z1 : ℚ) - z0 := by push_cast; ring
    rw [← hc]
    exact_mod_cast this
  · have : (z1 - z0 : ℤ) ≤ 7 := by omega
    have hc : ((z1 - z0 : ℤ) : ℚ) = (z1 : ℚ) - z0 := by push_cast; ring
    rw [← hc]
    exact_mod_cast this

/-- Witness for the amended C3 on `sW3` with the constant-zero jitter
stream. -/
theorem claim_C3_amended_complementary_witness :
    ((lockedBlocks sW3).isEmpty = true ∧
      (blockInfoAux 0 sW3.color_blocks).length = 2) ∧
    ∃ hsv0 hsv1 : Hsv,
      logicalHsv (generate_complementary rcW rngW sW3).color_blocks 0 =
        some hsv0 ∧
      logicalHsv (generate_complementary rcW rngW sW3).color_blocks 1 =
        some hsv1 ∧
      hueDiffFrom180 hsv1.hue hsv0.hue ≤ 7 :=
  ⟨⟨by decide, by decide⟩,
    claim_C3_amended_complementary rcW rngW sW3 (by decide) (by decide)
      ⟨0, by norm_num [rngW], by norm_num, by norm_num⟩
      ⟨0, by norm_num [rngW], by norm_num, by norm_num⟩⟩

/-- C6: After a Shadows `generate` on a palette whose unique locked
slot sits at logical position `k` with value `v`, `0 < v < 1`:
(a) values at positions above `k` strictly decrease as the position
increases, (b) the last position ends exactly one step
`v / (total - k)` above `0`, and (c) values at positions below `k`
strictly increase moving from `k` toward position `0`. -/
theorem claim_C6_shadows_value_ramp (rc : Hsv) (rng : ℕ → ℚ)
    (s : PaletteState) (k ak : ℕ) (bk : ColorBlock)
    (hk : (blockInfoAux 0 s.color_blocks).get? k = some (ak, bk))
    (huniq : ∀ p a b,
      (blockInfoAux 0 s.color_blocks).get? p = some (a, b) →
      (b.locked = true ↔ p = k))
    (hv0 : 0 < bk.hsv.value) (hv1 : bk.hsv.value < 1) :
    (∀ p q, k < p → p < q →
      q < (blockInfoAux 0 s.color_blocks).length →
      ∃ hp hq : Hsv,
        logicalHsv (generate ColorTheories.Shadows rc rng s).color_blocks
          p = some hp ∧
        logicalHsv (generate ColorTheories.Shadows rc rng s).color_blocks
          q = some hq ∧
        hq.value < hp.value) ∧
    (k + 1 < (blockInfoAux 0 s.color_blocks).length →
      ∃ hl : Hsv,
        logicalHsv (generate ColorTheories.Shadows rc rng s).color_blocks
          ((blockInfoAux 0 s.color_blocks).length - 1) = some hl ∧
        hl.value = bk.hsv.value /
          (((blockInfoAux 0 s.color_blocks).length - k : ℕ) : ℚ) ∧
        0 < hl.value) ∧
    (∀ p q, p < q → q < k →
      ∃ hp hq : Hsv,
        logicalHsv (generate ColorTheories.Shadows rc rng s).color_blocks
          p = some hp ∧
        logicalHsv (generate ColorTheories.Shadows rc rng s).color_blocks
          q = some hq ∧
        hq.value < hp.value) := by
  simp only [generate]
  have hkt : k < (blockInfoAux 0 s.color_blocks).length := by
    by_contra hc
    rw [List.get?_eq_none.mpr (Nat.le_of_not_lt hc)] at hk
    exact Option.noConfusion hk
  have hv0' : 0 ≤ bk.hsv.value := le_of_lt hv0
  have hv1' : bk.hsv.value ≤ 1 := le_of_lt hv1
  refine ⟨?_, ?_, ?_⟩
  · intro p q hkp hpq hqt
    obtain ⟨hp, hLp, hVp⟩ := shades_value_at rc s k ak bk hk huniq hv0'
      hv1' p (lt_trans hpq hqt) (by omega)
    obtain ⟨hq, hLq, hVq⟩ := shades_value_at rc s k ak bk hk huniq hv0'
      hv1' q hqt (by omega)
    refine ⟨hp, hq, hLp, hLq, ?_⟩
    rw [hVp, hVq, if_neg (by omega), if_neg (by omega)]
    have hcast : ((p - k : ℕ) : ℚ) < ((q - k : ℕ) : ℚ) :=
      Nat.cast_lt.mpr (by omega)
    have hcpos : 0 < bk.hsv.value /
        (((blockInfoAux 0 s.color_blocks).length - k : ℕ) : ℚ) :=
      div_pos hv0 (by exact_mod_cast Nat.sub_pos_of_lt hkt)
    have := mul_lt_mul_of_pos_left hcast hcpos
    linarith
  · intro hklt
    obtain ⟨hl, hL, hV⟩ := shades_value_at rc s k ak bk hk huniq hv0'
      hv1' ((blockInfoAux 0 s.color_blocks).length - 1) (by omega)
      (by omega)
    have hmne : (((blockInfoAux 0 s.color_blocks).length - k : ℕ) : ℚ) ≠
        0 := Nat.cast_ne_zero.mpr (by omega)
    have hmpos : (0 : ℚ) <
        (((blockInfoAux 0 s.color_blocks).length - k : ℕ) : ℚ) := by
      exact_mod_cast Nat.sub_pos_of_lt hkt
    have heq : hl.value = bk.hsv.value /
        (((blockInfoAux 0 s.color_blocks).length - k : ℕ) : ℚ) := by
      rw [hV, if_neg (by omega)]
      have hidx : ((blockInfoAux 0 s.color_blocks).length - 1 - k : ℕ) =
          (blockInfoAux 0 s.color_blocks).length - k - 1 := by omega
      rw [hidx,
        Nat.cast_sub (by omega :
          1 ≤ (blockInfoAux 0 s.color_blocks).length - k),
        Nat.cast_one]
      field_simp
      ring
    exact ⟨hl, hL, heq, heq ▸ div_pos hv0 hmpos⟩
  · intro p q hpq hqk
    obtain ⟨hp, hLp, hVp⟩ := shades_value_at rc s k ak bk hk huniq hv0'
      hv1' p (by omega) (by omega)
    obtain ⟨hq, hLq, hVq⟩ := shades_value_at rc s k ak bk hk huniq hv0'
      hv1' q (by omega) (by omega)
    refine ⟨hp, hq, hLp, hLq, ?_⟩
    rw [hVp, hVq, if_pos hqk, if_pos (show p < k by omega)]
    have hcpos : 0 < (1 - bk.hsv.value) / (k : ℚ) :=
      div_pos (by linarith) (by exact_mod_cast (show 0 < k by omega))
    have hcast : (p : ℚ) < (q : ℚ) := Nat.cast_lt.mpr hpq
    have := mul_lt_mul_of_pos_left hcast hcpos
    linarith

/-- Witness for C6 on `sW6` (anchor at position 1, value 1/2, four
occupied slots): the last slot ends one step above zero. -/
theorem claim_C6_shadows_value_ramp_witness :
    ∃ hl : Hsv,
      logicalHsv (generate ColorTheories.Shadows rcW rngW sW6).color_blocks
        ((blockInfoAux 0 sW6.color_blocks).length - 1) = some hl ∧
      hl.value = bK6.hsv.value /
        (((blockInfoAux 0 sW6.color_blocks).length - 1 : ℕ) : ℚ) ∧
      0 < hl.value := by
  have huniq : ∀ p a b,
      (blockInfoAux 0 sW6.color_blocks).get? p = some (a, b) →
      (b.locked = true ↔ p = 1) := by
    intro p a b hb
    have hlen : (blockInfoAux 0 sW6.color_blocks).length = 4 := by decide
    have hp4 : p < 4 := by
      by_contra hc
      rw [List.get?_eq_none.mpr (by omega)] at hb
      exact Option.noConfusion hb
    interval_cases p <;>
      simp only [sW6, bK6, blockInfoAux, List.get?, Option.some.injEq,
        Prod.mk.injEq] at hb <;>
      obtain ⟨h1, h2⟩ := hb <;>
      subst h2 <;> simp
  exact (claim_C6_shadows_value_ramp rcW rngW sW6 1 1 bK6 rfl huniq
    (by norm_num [bK6]) (by norm_num [bK6])).2.1 (by decide)

end Palette
